import Mathlib

/-!
# Marionette transport: framing and connection lifecycle

A shallow embedding of `transport.go` (package `marionette`): the frame reader
(`messageLength`, `read`), and the `Transport` methods `Connect`, `Close`,
`Send`, `Receive`, `MessageID`.

Conventions of the embedding

* `[]byte` is `List UInt8`; Go's `int` is 64 bits wide (`Int` reduced with `wrapInt`).
* A `net.Conn` is a value of `Conn`: the segments the peer delivers, the error
  the connection reports once they are used up, and a log of what was written.
* A Go function returning `(v, error)` returns `Except Error v`; where the Go
  code can also abort with a run-time panic the result is an `Outcome`.
* The unbounded `for` loop of `messageLength` takes a fuel argument; `none`
  means that the loop is still running after that many iterations.
-/

namespace Marionette

/-! ## Errors and outcomes -/

/-- The type `DriverError`, declared outside the files at hand; fields as used in `webelement.go`. -/
structure DriverError where
  ErrorType : String
  Message : String
  Stacktrace : Option String
  deriving DecidableEq, Repr

/-- Go `error` values that the transport produces or passes on. -/
inductive Error where
  /-- The value `io.EOF`. -/
  | EOF
  /-- The value `io.ErrUnexpectedEOF`. -/
  | ErrUnexpectedEOF
  /-- A `*strconv.NumError` for the text `num`; `outOfRange` tells `ErrRange` from `ErrSyntax`. -/
  | NumError (num : List UInt8) (outOfRange : Bool)
  /-- The value `errors.New(text)`. -/
  | New (text : String)
  /-- Any error made by a collaborator: the network stack, the codec, the JSON decoder. -/
  | foreign (text : String)
  /-- A `*DriverError` returned as an `error`. -/
  | driver (d : DriverError)
  deriving DecidableEq, Repr

/-- Result of a Go call that returns a value, returns an error, or panics. -/
inductive Outcome (α : Type) where
  | ok (a : α)
  | error (e : Error)
  | panic (text : String)
  deriving DecidableEq, Repr

/-! ## Connections -/

/-- One thing a blocked `Read` can wake up with: bytes from the peer, or an error. -/
inductive ReadEvent where
  | data (seg : List UInt8)
  | fail (e : Error)
  deriving DecidableEq, Repr

/-- State of a `net.Conn`.

`incoming` lists, in order, what the reads of this connection will observe: a
`data` segment is delivered by one or more `Read` calls (a `Read` never joins
two segments), a `fail` is reported by exactly one `Read`. Once `incoming` is
used up every `Read` reports `atEnd` (`io.EOF` after the peer closed). -/
structure Conn where
  incoming : List ReadEvent
  atEnd : Error
  /-- Buffers accepted by `Write`, oldest first. -/
  outgoing : List (List UInt8)
  /-- Error reported by `Write`, if any. -/
  writeErr : Option Error
  /-- Error reported by `Close`, if any. -/
  closeErr : Option Error
  /-- Number of `SetDeadline` calls made so far (wall-clock time is not modelled). -/
  deadlines : Nat
  deriving DecidableEq, Repr

/-- The event the next `Read` observes, and the events after it. A `Read` on a
socket blocks until there is at least one byte or an error, so empty segments
are passed over. -/
def pendingEvent : List ReadEvent → Option (ReadEvent × List ReadEvent)
  | [] => none
  | ReadEvent.data [] :: rest => pendingEvent rest
  | ev :: rest => some (ev, rest)

/-- What `c.Read(b)` returns: the buffer after the call, `n`, `err`, and the connection. -/
structure ReadResult where
  buf : List UInt8
  n : Nat
  err : Option Error
  conn : Conn
  deriving DecidableEq, Repr

/-- The call `c.Read(b)`: copies at most `len(b)` bytes of the pending segment to the front of `b`. -/
def Conn.Read (c : Conn) (b : List UInt8) : ReadResult :=
  if b = [] then ⟨b, 0, none, c⟩
  else
    match pendingEvent c.incoming with
    | none => ⟨b, 0, some c.atEnd, c⟩
    | some (ReadEvent.fail e, rest) => ⟨b, 0, some e, { c with incoming := rest }⟩
    | some (ReadEvent.data seg, rest) =>
      let n := min b.length seg.length
      ⟨seg.take n ++ b.drop n, n, none, { c with incoming := ReadEvent.data (seg.drop n) :: rest }⟩

/-- The call `c.Write(b)`. -/
def Conn.Write (c : Conn) (b : List UInt8) : (Nat × Option Error) × Conn :=
  match c.writeErr with
  | some e => ((0, some e), c)
  | none => ((b.length, none), { c with outgoing := c.outgoing ++ [b] })

/-- The call `c.SetDeadline(connDefaultDeadline())`; its error result is ignored by every caller. -/
def Conn.SetDeadline (c : Conn) : Conn :=
  { c with deadlines := c.deadlines + 1 }

/-- The call `c.Close()`. -/
def Conn.Close (c : Conn) : Option Error :=
  c.closeErr

/-! ## `strconv.Atoi` (Go standard library, 64-bit `int`) -/

/-- Width of Go's `int` (`strconv.IntSize`). -/
def intSize : Nat := 64

/-- Reduction of an integer to the range of Go's `int` (two's complement wrap-around). -/
def wrapInt (i : Int) : Int :=
  (i + 2 ^ (intSize - 1)) % 2 ^ intSize - 2 ^ (intSize - 1)

/-- Digit loop of the fast path of `Atoi`: `ch -= '0'; if ch > 9 ... ; n = n*10 + int(ch)`.
`none` stands for the syntax error. -/
def atoiFast : List UInt8 → Nat → Option Nat
  | [], n => some n
  | ch :: s, n =>
    let d := ch - 48
    if d > 9 then none else atoiFast s (n * 10 + d.toNat)

/-- Digit loop of `strconv.ParseUint(s, 10, 64)`; the error is `true` for `ErrRange`
and `false` for `ErrSyntax`. In base 10 every byte that is not a decimal digit is a
syntax error (a letter has digit value at least 10, an underscore is only
allowed with base 0). -/
def parseUintLoop : List UInt8 → Nat → Except Bool Nat
  | [], n => Except.ok n
  | c :: s, n =>
    if 48 ≤ c ∧ c ≤ 57 then
      let d := (c - 48).toNat
      -- cutoff = maxUint64/10 + 1
      if n ≥ (2 ^ 64 - 1) / 10 + 1 then Except.error true
      else
        let n10 := n * 10
        let n1 := (n10 + d) % 2 ^ 64
        if n1 < n10 ∨ n1 > 2 ^ 64 - 1 then Except.error true
        else parseUintLoop s n1
    else Except.error false

/-- The call `strconv.ParseUint(s, 10, 64)`. -/
def ParseUint (s : List UInt8) : Except Bool Nat :=
  if s = [] then Except.error false else parseUintLoop s 0

/-- The call `strconv.ParseInt(s, 10, 0)`; the number returned next to an error is dropped. -/
def ParseInt (s : List UInt8) : Except Bool Int :=
  match s with
  | [] => Except.error false
  | c :: r =>
    let neg := c = 45
    let body := if c = 43 ∨ c = 45 then r else s
    match ParseUint body with
    | Except.error k => Except.error k
    | Except.ok un =>
      let cutoff := 2 ^ (intSize - 1)
      if ¬ neg ∧ un ≥ cutoff then Except.error true
      else if neg ∧ un > cutoff then Except.error true
      else Except.ok (if neg then - (un : Int) else (un : Int))

/-- The call `strconv.Atoi(s)`. Texts of 1 to 18 bytes take the fast path, all
others go through `ParseInt`. The number returned next to an error is dropped:
`messageLength` does not use it. -/
def Atoi (s : List UInt8) : Except Error Int :=
  if 0 < s.length ∧ s.length < 19 then
    match s with
    | [] => Except.error (Error.NumError s false)
    | c :: r =>
      let signed := c = 45 ∨ c = 43
      let body := if signed then r else s
      if signed ∧ body.length < 1 then Except.error (Error.NumError s false)
      else
        match atoiFast body 0 with
        | none => Except.error (Error.NumError s false)
        | some n => Except.ok (if c = 45 then - (n : Int) else (n : Int))
  else
    match ParseInt s with
    | Except.error k => Except.error (Error.NumError s k)
    | Except.ok i => Except.ok i

/-! ## The frame reader -/

/-- The loop of `messageLength`, with `byteSize` and the one-byte buffer `tmp` as
loop state. An error of `Read` other than `io.EOF` ends the loop; after `io.EOF`
the loop goes on with whatever `tmp` holds. -/
def messageLengthLoop : Nat → Conn → List UInt8 → List UInt8 → Option (Except Error Int × Conn)
  | 0, _, _, _ => none
  | fuel + 1, c, byteSize, tmp =>
    let r := c.Read tmp
    -- if err != nil { if err != io.EOF { return 0, err } }
    match r.err.filter (fun e => e ≠ Error.EOF) with
    | some e => some (Except.error e, r.conn)
    | none =>
      if r.buf ≠ [58] then messageLengthLoop fuel r.conn (byteSize ++ r.buf) r.buf
      else some (Atoi byteSize, r.conn)

/-- The function `messageLength(c)`: `byteSize` starts empty and `tmp` is `make([]byte, 1)`. -/
def messageLength (fuel : Nat) (c : Conn) : Option (Except Error Int × Conn) :=
  messageLengthLoop fuel c [] [0]

/-- The loop `for n < min && err == nil` of `io.ReadAtLeast`. Every `Read` into a
non-empty buffer that reports no error delivers at least one byte, so `min`
rounds are enough; the first argument counts the rounds left. -/
def readAtLeastLoop (min : Nat) : Nat → Conn → List UInt8 → Nat → Option Error →
    List UInt8 × Nat × Option Error × Conn
  | 0, c, buf, n, err => (buf, n, err, c)
  | k + 1, c, buf, n, err =>
    if n < min ∧ err = none then
      let r := c.Read (buf.drop n)
      readAtLeastLoop min k r.conn (buf.take n ++ r.buf) (n + r.n) r.err
    else (buf, n, err, c)

/-- The call `io.ReadFull(c, buf)`, that is `io.ReadAtLeast(c, buf, len(buf))`. -/
def ReadFull (c : Conn) (buf : List UInt8) : List UInt8 × Nat × Option Error × Conn :=
  let min := buf.length
  match readAtLeastLoop min min c buf 0 none with
  | (buf1, n, err, c1) =>
    if n ≥ min then (buf1, n, none, c1)
    else if n > 0 ∧ err = some Error.EOF then (buf1, n, some Error.ErrUnexpectedEOF, c1)
    else (buf1, n, err, c1)

/-- Largest number of bytes that the Go runtime allocates for one object
(`runtime.maxAlloc`, `1 << 48` on 64-bit Linux and Windows). -/
def maxAlloc : Nat := 2 ^ 48

/-- The function `read(c)`. `make([]byte, msgSize)` panics for a negative size and
for a size above `maxAlloc`; running out of memory below that limit depends on
the machine and is not modelled. -/
def read (fuel : Nat) (c : Conn) : Option (Outcome (List UInt8) × Conn) :=
  match messageLength fuel c with
  | none => none
  | some (Except.error e, c1) => some (Outcome.error e, c1)
  | some (Except.ok msgSize, c1) =>
    if msgSize < 0 ∨ msgSize > (maxAlloc : Int) then
      some (Outcome.panic "runtime error: makeslice: len out of range", c1)
    else
      match ReadFull c1 (List.replicate msgSize.toNat 0) with
      | (msgBuf, _, err, c2) =>
        match err with
        | some e => some (Outcome.error e, c2)
        | none => some (Outcome.ok msgBuf, c2)

/-! ## Wire format -/

/-- Decimal ASCII text of a natural number, most significant digit first. -/
def decimalASCII (n : Nat) : List UInt8 :=
  if n = 0 then [48] else ((Nat.digits 10 n).reverse).map (fun d => UInt8.ofNat (48 + d))

/-- A frame on the wire: the decimal length, the byte ':' and the payload. -/
def frame (p : List UInt8) : List UInt8 :=
  decimalASCII p.length ++ 58 :: p

/-- A connection whose peer delivers the given segments and then closes. -/
def Conn.ofSegments (segs : List (List UInt8)) : Conn :=
  { incoming := segs.map ReadEvent.data, atEnd := Error.EOF, outgoing := [],
    writeErr := none, closeErr := none, deadlines := 0 }


/-! ## The transport -/

/-- A Go value of type `any` (command parameters). The transport only hands it
to the codec; it is represented by its JSON text. -/
abbrev Any := String

/-- The struct `Response`. -/
structure Response where
  MessageID : Int
  Size : Int
  Value : String
  DriverError : Option DriverError
  deriving DecidableEq, Repr

/-- The interface `Codec`, declared outside the files at hand: its two methods are
parameters of the model. `Decode(buf, data)` is only ever called on a fresh
`&Response{}`, so it is a function of `buf`. -/
structure Codec where
  Encode : Int → String → Any → Except Error (List UInt8)
  Decode : List UInt8 → Except Error Response

/-- The struct `Transport`; a nil `conn` or `de` is `none`. -/
structure Transport where
  ApplicationType : String
  MarionetteProtocol : Int
  messageID : Int
  conn : Option Conn
  de : Option Codec

/-- The zero value `&Transport{}`, as made by `NewClient`. -/
def Transport.fresh : Transport :=
  { ApplicationType := "", MarionetteProtocol := 0, messageID := 0, conn := none, de := none }

/-- What `Connect` calls outside the transport: the dialer (with its context),
`json.Unmarshal([]byte(r), &t)` of the handshake, and `NewDecoderEncoder`,
declared outside the files at hand. The JSON decoder writes the exported
fields `ApplicationType` and `MarionetteProtocol` through the pointer `t`
(they may be set even when an error is returned); for the JSON literal `null`
it sets the pointer `t` itself to nil, which is `none` here. -/
structure Env where
  dial : String → Except Error Conn
  unmarshalHandshake : List UInt8 → String × Int → Option (String × Int) × Option Error
  NewDecoderEncoder : Int → Except Error Codec

/-- Calls on collaborators that leave no mark on the `Transport` value. -/
inductive Effect where
  /-- The call `dialer.DialContext(ctx, "tcp", addr)`. -/
  | dial (addr : String)
  /-- The call `t.de.Encode(id, command, values)`. -/
  | encode (id : Int) (command : String) (values : Any)
  /-- The call `log.Println(line)`. -/
  | println (line : List UInt8)
  deriving DecidableEq, Repr

/-- Text of the run-time panic for a method call through a nil interface value. -/
def nilDereference : String :=
  "runtime error: invalid memory address or nil pointer dereference"

/-- The slice expression `s[lo:hi]`; `none` when it panics (bounds out of range). -/
def slice (s : List UInt8) (lo hi : Nat) : Option (List UInt8) :=
  if lo ≤ hi ∧ hi ≤ s.length then some ((s.take hi).drop lo) else none

/-- The method `MessageID`. -/
def Transport.MessageID (t : Transport) : Int :=
  t.messageID

/-- The function `write(c, b)`: sets the deadline, then writes. -/
def write (c : Option Conn) (b : List UInt8) : Outcome Nat × Option Conn :=
  match c with
  | none => (Outcome.panic nilDereference, none)
  | some c =>
    match (c.SetDeadline).Write b with
    | ((n, none), c1) => (Outcome.ok n, some c1)
    | ((_, some e), c1) => (Outcome.error e, some c1)

/-- The method `Receive`: sets the deadline, then reads one frame. -/
def Transport.Receive (fuel : Nat) (t : Transport) : Option (Outcome (List UInt8) × Transport) :=
  match t.conn with
  | none => some (Outcome.panic nilDereference, t)
  | some c =>
    match read fuel c.SetDeadline with
    | none => none
    | some (out, c1) => some (out, { t with conn := some c1 })

/-- The method `Connect`. -/
def Transport.Connect (env : Env) (fuel : Nat) (t : Transport) (addr : String) :
    Option (Outcome Unit × Transport × List Effect) :=
  match t.conn with
  | some _ =>
    some (Outcome.error
      (Error.New "a connection is already established. please disconnect before connecting"), t, [])
  | none =>
    let addr := if addr = "" then "127.0.0.1:2828" else addr
    match env.dial addr with
    | Except.error e => some (Outcome.error e, t, [Effect.dial addr])
    | Except.ok c =>
      let t1 := { t with conn := some c }
      match t1.Receive fuel with
      | none => none
      | some (Outcome.error e, t2) => some (Outcome.error e, t2, [Effect.dial addr])
      | some (Outcome.panic m, t2) => some (Outcome.panic m, t2, [Effect.dial addr])
      | some (Outcome.ok r, t2) =>
        match env.unmarshalHandshake r (t2.ApplicationType, t2.MarionetteProtocol) with
        | (none, some e) => some (Outcome.error e, t2, [Effect.dial addr])
        -- t is nil: t.MarionetteProtocol panics
        | (none, none) => some (Outcome.panic nilDereference, t2, [Effect.dial addr])
        | (some fields, err) =>
          let t3 := { t2 with ApplicationType := fields.1, MarionetteProtocol := fields.2 }
          match err with
          | some e => some (Outcome.error e, t3, [Effect.dial addr])
          | none =>
            match env.NewDecoderEncoder t3.MarionetteProtocol with
            | Except.error e => some (Outcome.error e, t3, [Effect.dial addr])
            | Except.ok d => some (Outcome.ok (), { t3 with de := some d }, [Effect.dial addr])

/-- The method `Close`: the returned error (nil is `none`) and the transport afterwards. -/
def Transport.Close (t : Transport) : Option Error × Transport :=
  match t.conn with
  | none => (none, t)
  | some c =>
    match c.Close with
    | some e => (some e, t)
    | none => (none, { t with conn := none })

/-- The bytes of the string `" - END - "`. -/
def endMark : List UInt8 := [32, 45, 32, 69, 78, 68, 32, 45, 32]

/-- The debug branch of `Send`: the line handed to `log.Println`, `none` when a slice panics. -/
def debugLine (buf : List UInt8) : Option (List UInt8) :=
  if buf.length ≥ 512 then
    match slice buf 0 512, slice buf (buf.length - 512) buf.length with
    | some head, some tail => some (head ++ endMark ++ tail)
    | _, _ => none
  else some buf

/-- The method `Send`, with the global `RunningInDebugMode` as first argument. -/
def Transport.Send (debug : Bool) (fuel : Nat) (t : Transport) (command : String) (values : Any) :
    Option (Outcome Response × Transport × List Effect) :=
  let t1 := { t with messageID := wrapInt (t.messageID + 1) }
  match t1.de with
  | none => some (Outcome.panic nilDereference, t1, [])
  | some de =>
    let enc := [Effect.encode t1.messageID command values]
    match de.Encode t1.messageID command values with
    | Except.error e => some (Outcome.error e, t1, enc)
    | Except.ok buf =>
      match write t1.conn buf with
      | (Outcome.panic m, c) => some (Outcome.panic m, { t1 with conn := c }, enc)
      | (Outcome.error e, c) => some (Outcome.error e, { t1 with conn := c }, enc)
      | (Outcome.ok _, c) =>
        let t2 := { t1 with conn := c }
        match t2.Receive fuel with
        | none => none
        | some (Outcome.error e, t3) => some (Outcome.error e, t3, enc)
        | some (Outcome.panic m, t3) => some (Outcome.panic m, t3, enc)
        | some (Outcome.ok rBuf, t3) =>
          let logged : Option (List Effect) :=
            if debug then (debugLine buf).map (fun line => [Effect.println line]) else some []
          match logged with
          | none => some (Outcome.panic "slice bounds out of range", t3, enc)
          | some log =>
            match de.Decode rBuf with
            | Except.error e => some (Outcome.error e, t3, enc ++ log)
            | Except.ok data => some (Outcome.ok data, t3, enc ++ log)

/-- A run of `Send` calls, one after the other on the same transport, whatever
each call returns; `none` when one of them never returns. The result is the
transport after the last call and the effects of all calls in order. -/
def sendAll (debug : Bool) (fuel : Nat) : Transport → List (String × Any) →
    Option (Transport × List Effect)
  | t, [] => some (t, [])
  | t, cv :: rest =>
    match t.Send debug fuel cv.1 cv.2 with
    | none => none
    | some (_, t1, eff) =>
      match sendAll debug fuel t1 rest with
      | none => none
      | some (t2, eff2) => some (t2, eff ++ eff2)

/-- Message ids handed to the encoder, in call order. -/
def encodedIds : List Effect → List Int
  | [] => []
  | Effect.encode id _ _ :: rest => id :: encodedIds rest
  | _ :: rest => encodedIds rest

/-- What the codec returns for the commands of a run when they are encoded with the
message ids `id`, `id + 1`, ...: the buffers of the encodings that succeed, in
order. -/
def encodedFrames (d : Codec) : Int → List (String × Any) → List (List UInt8)
  | _, [] => []
  | id, cv :: rest =>
    (match d.Encode id cv.1 cv.2 with
      | Except.ok buf => [buf]
      | Except.error _ => []) ++ encodedFrames d (id + 1) rest

/-- The method `SendAndDecode`. The destination `dest` has type `D`, and
`unmarshal s dest` is `json.Unmarshal([]byte(s), dest)`: the destination
afterwards and the error. -/
def Transport.SendAndDecode {D : Type} (unmarshal : String → D → D × Option Error)
    (debug : Bool) (fuel : Nat) (t : Transport) (dest : D) (command : String) (values : Any) :
    Option (Outcome Unit × D × Transport × List Effect) :=
  match t.Send debug fuel command values with
  | none => none
  | some (Outcome.panic m, t1, eff) => some (Outcome.panic m, dest, t1, eff)
  | some (Outcome.error e, t1, eff) => some (Outcome.error e, dest, t1, eff)
  | some (Outcome.ok data, t1, eff) =>
    let r := unmarshal data.Value dest
    match r.2 with
    | some e => some (Outcome.error e, r.1, t1, eff)
    | none => some (Outcome.ok (), r.1, t1, eff)

/-! ## Input actions (`actions.go`) -/

/-- The struct `PointerParameters`. -/
structure PointerParameters where
  PointerType : String
  deriving DecidableEq, Repr

/-- The struct `Pause`. -/
structure Pause where
  /-- The Go field `Type`. -/
  Type_ : String
  Duration : Int
  deriving DecidableEq, Repr

/-- The struct `PointerMove`. -/
structure PointerMove where
  /-- The Go field `Type`. -/
  Type_ : String
  Duration : Int
  Origin : String
  X : Int
  Y : Int
  deriving DecidableEq, Repr

/-- The struct `PointerUp`. -/
structure PointerUp where
  /-- The Go field `Type`. -/
  Type_ : String
  Button : Int
  deriving DecidableEq, Repr

/-- The struct `PointerDown`. -/
structure PointerDown where
  /-- The Go field `Type`. -/
  Type_ : String
  Button : Int
  deriving DecidableEq, Repr

/-- The struct `Scroll`. -/
structure Scroll where
  /-- The Go field `Type`. -/
  Type_ : String
  Duration : Int
  Origin : String
  X : Int
  Y : Int
  DeltaX : Int
  DeltaY : Int
  deriving DecidableEq, Repr

/-- A value of type `any` handed to `Add`, by dynamic type: one of the five
struct types of the type switch, or a value of any other type (a pointer to
one of the structs included), named by a description. -/
inductive Action where
  | pause (v : Pause)
  | pointerMove (v : PointerMove)
  | pointerUp (v : PointerUp)
  | pointerDown (v : PointerDown)
  | scroll (v : Scroll)
  | other (description : String)
  deriving DecidableEq, Repr

/-- The struct `InputActions`; `Parameters` is nil or a `PointerParameters`. -/
structure InputActions where
  /-- The Go field `Type`. -/
  Type_ : String
  Id : String
  Parameters : Option PointerParameters
  Actions : List Action
  deriving DecidableEq, Repr

/-- The method `Add`: the type switch copies the struct into `v`, sets `v.Type`
and appends `v`; any other dynamic type panics. -/
def InputActions.Add (ia : InputActions) (action : Action) : Outcome InputActions :=
  match action with
  | Action.pause v =>
    Outcome.ok { ia with Actions := ia.Actions ++ [Action.pause { v with Type_ := "pause" }] }
  | Action.pointerMove v =>
    Outcome.ok { ia with Actions := ia.Actions ++ [Action.pointerMove { v with Type_ := "pointerMove" }] }
  | Action.pointerUp v =>
    Outcome.ok { ia with Actions := ia.Actions ++ [Action.pointerUp { v with Type_ := "pointerUp" }] }
  | Action.pointerDown v =>
    Outcome.ok { ia with Actions := ia.Actions ++ [Action.pointerDown { v with Type_ := "pointerDown" }] }
  | Action.scroll v =>
    Outcome.ok { ia with Actions := ia.Actions ++ [Action.scroll { v with Type_ := "scroll" }] }
  | Action.other _ => Outcome.panic "invalid action"

/-- The `Type` field of an action; a value outside the five kinds has none. -/
def Action.type : Action → Option String
  | Action.pause v => some v.Type_
  | Action.pointerMove v => some v.Type_
  | Action.pointerUp v => some v.Type_
  | Action.pointerDown v => some v.Type_
  | Action.scroll v => some v.Type_
  | Action.other _ => none

/-- The same action with its `Type` field replaced. -/
def Action.withType (s : String) : Action → Action
  | Action.pause v => Action.pause { v with Type_ := s }
  | Action.pointerMove v => Action.pointerMove { v with Type_ := s }
  | Action.pointerUp v => Action.pointerUp { v with Type_ := s }
  | Action.pointerDown v => Action.pointerDown { v with Type_ := s }
  | Action.scroll v => Action.scroll { v with Type_ := s }
  | Action.other d => Action.other d

/-- The tag that the wire protocol uses for each of the five kinds of action. -/
def Action.tag : Action → Option String
  | Action.pause _ => some "pause"
  | Action.pointerMove _ => some "pointerMove"
  | Action.pointerUp _ => some "pointerUp"
  | Action.pointerDown _ => some "pointerDown"
  | Action.scroll _ => some "scroll"
  | Action.other _ => none

/-! ## Element references (`webelement.go`) -/

/-- The constant `WEBDRIVER_ELEMENT_KEY` of `client.go`. -/
def WEBDRIVER_ELEMENT_KEY : String := "element-6066-11e4-a52e-4f735466cecf"

/-- A Go `map[string]V` seen through its lookups: `none` for an absent key. The
nil map has no key. -/
abbrev GoMap (V : Type) := String → Option V

/-- The struct `WebElement`; `c` stands for the `*Client` pointer. -/
structure WebElement where
  id : String
  c : Option Nat
  deriving DecidableEq, Repr

/-- The method `UnmarshalJSON`. `unmarshal data` is `json.Unmarshal(data, &d)` for
`var d map[string]map[string]string`. The index expression `d["value"]` yields
the nil map when the key is absent, and the nil map holds no key. -/
def WebElement.UnmarshalJSON (unmarshal : List UInt8 → Except Error (GoMap (GoMap String)))
    (e : WebElement) (data : List UInt8) : Option Error × WebElement :=
  match unmarshal data with
  | Except.error err => (some err, e)
  | Except.ok d =>
    let value : GoMap String := (d "value").getD (fun _ => none)
    match value WEBDRIVER_ELEMENT_KEY with
    | none =>
      (some (Error.driver
        { ErrorType := "WebDriverElementKey",
          Message := "key " ++ WEBDRIVER_ELEMENT_KEY ++ " expected in response but not found",
          Stacktrace := none }), e)
    | some newId => (none, { e with id := newId })

/-- Decimal digit test, `'0' <= c && c <= '9'`. -/
def isDigit (c : UInt8) : Bool := 48 ≤ c && c ≤ 57

/-- Text of a signed decimal integer: an optional sign `+` or `-`, then one or more decimal digits. -/
def signedDecimal : List UInt8 → Bool
  | [] => false
  | c :: r => if c = 43 ∨ c = 45 then (!r.isEmpty && r.all isDigit) else (c :: r).all isDigit

/-! ## What a connection still holds -/

/-- Bytes that the reads of a connection deliver before the first error. -/
def avail : List ReadEvent → List UInt8
  | [] => []
  | ReadEvent.data seg :: rest => seg ++ avail rest
  | ReadEvent.fail _ :: _ => []

/-- Events of a connection from its first error on. -/
def afterData : List ReadEvent → List ReadEvent
  | [] => []
  | ReadEvent.data _ :: rest => afterData rest
  | ReadEvent.fail e :: rest => ReadEvent.fail e :: rest

/-- Error that a `Read` reports once the bytes before the first error are used up. -/
def endError (c : Conn) : Error :=
  match afterData c.incoming with
  | ReadEvent.fail e :: _ => e
  | _ => c.atEnd

/-! ## Stub peers for worked examples -/

/-- A codec that encodes every command as the frame `2:{}` and decodes every reply to an empty response. -/
def stubCodec : Codec :=
  { Encode := fun _ _ _ => Except.ok [50, 58, 123, 125],
    Decode := fun _ => Except.ok { MessageID := 0, Size := 0, Value := "", DriverError := none } }

/-- Collaborators for a stub server: every dial yields the connection `c`, the
handshake decodes to application type `gecko` and protocol 3, every protocol
resolves to `stubCodec`. -/
def stubEnv (c : Conn) : Env :=
  { dial := fun _ => Except.ok c,
    unmarshalHandshake := fun _ _ => (some ("gecko", 3), none),
    NewDecoderEncoder := fun _ => Except.ok stubCodec }

/-- A ready Transport talking to a stub server over the connection `c`, as `Connect`
with `stubEnv c` leaves it after the handshake. -/
def stubReady (c : Conn) : Transport :=
  { ApplicationType := "gecko", MarionetteProtocol := 3, messageID := 0, conn := some c,
    de := some stubCodec }

/-- A codec that encodes a command as the one byte `'0' + id`, so that the bytes on
the wire tell which message id the encoder was given. -/
def idCodec : Codec :=
  { Encode := fun id _ _ => Except.ok [UInt8.ofNat (48 + id.toNat)],
    Decode := fun _ => Except.ok { MessageID := 0, Size := 0, Value := "", DriverError := none } }

/-- The collaborators of `stubEnv`, with every protocol resolving to `idCodec`. -/
def idEnv (c : Conn) : Env :=
  { dial := fun _ => Except.ok c,
    unmarshalHandshake := fun _ _ => (some ("gecko", 3), none),
    NewDecoderEncoder := fun _ => Except.ok idCodec }

/-! ## Lemmas on `Read` -/

theorem pendingEvent_none {l : List ReadEvent} (h : pendingEvent l = none) :
    avail l = [] ∧ afterData l = [] := by
  induction l with
  | nil => simp [avail, afterData]
  | cons ev rest ih =>
    cases ev with
    | fail e => simp [pendingEvent] at h
    | data seg =>
      cases seg with
      | nil => simpa [pendingEvent, avail, afterData] using ih (by simpa [pendingEvent] using h)
      | cons x xs => simp [pendingEvent] at h

theorem pendingEvent_fail {l rest : List ReadEvent} {e : Error}
    (h : pendingEvent l = some (ReadEvent.fail e, rest)) :
    avail l = [] ∧ afterData l = ReadEvent.fail e :: rest := by
  induction l with
  | nil => simp [pendingEvent] at h
  | cons ev tl ih =>
    cases ev with
    | fail e1 =>
      simp only [pendingEvent, Option.some.injEq, Prod.mk.injEq, ReadEvent.fail.injEq] at h
      obtain ⟨h1, h2⟩ := h
      subst h1 h2
      simp [avail, afterData]
    | data seg =>
      cases seg with
      | nil => simpa [pendingEvent, avail, afterData] using ih (by simpa [pendingEvent] using h)
      | cons x xs => simp [pendingEvent] at h

theorem pendingEvent_data {l rest : List ReadEvent} {seg : List UInt8}
    (h : pendingEvent l = some (ReadEvent.data seg, rest)) :
    seg ≠ [] ∧ avail l = seg ++ avail rest ∧ afterData l = afterData rest := by
  induction l with
  | nil => simp [pendingEvent] at h
  | cons ev tl ih =>
    cases ev with
    | fail e1 => simp [pendingEvent] at h
    | data s =>
      cases s with
      | nil => simpa [pendingEvent, avail, afterData] using ih (by simpa [pendingEvent] using h)
      | cons x xs =>
        simp only [pendingEvent, Option.some.injEq, Prod.mk.injEq, ReadEvent.data.injEq] at h
        obtain ⟨h1, h2⟩ := h
        subst h1 h2
        simp [avail, afterData]

/-- A `Read` into a non-empty buffer, with bytes available, delivers between one
byte and a buffer full of them, in order, and reports no error. -/
theorem Read_avail (c : Conn) (b : List UInt8) (hb : b ≠ []) (ha : avail c.incoming ≠ []) :
    ∃ n l, 1 ≤ n ∧ n ≤ b.length ∧ n ≤ (avail c.incoming).length ∧
      c.Read b = ⟨(avail c.incoming).take n ++ b.drop n, n, none, { c with incoming := l }⟩ ∧
      avail l = (avail c.incoming).drop n ∧ afterData l = afterData c.incoming := by
  unfold Conn.Read
  rw [if_neg hb]
  cases hp : pendingEvent c.incoming with
  | none => exact absurd (pendingEvent_none hp).1 ha
  | some pr =>
    obtain ⟨ev, rest⟩ := pr
    cases ev with
    | fail e => exact absurd (pendingEvent_fail hp).1 ha
    | data seg =>
      obtain ⟨hseg, hav, haf⟩ := pendingEvent_data hp
      have hbl : 1 ≤ b.length := List.length_pos.mpr hb
      have hsl : 1 ≤ seg.length := List.length_pos.mpr hseg
      refine ⟨min b.length seg.length, ReadEvent.data (seg.drop (min b.length seg.length)) :: rest,
        by omega, by omega, ?_, ?_, ?_, ?_⟩
      · rw [hav, List.length_append]; omega
      · simp only [hav]
        rw [List.take_append_of_le_length (by omega)]
      · simp only [avail, hav]
        rw [List.drop_append_of_le_length (by omega)]
      · simp only [afterData, haf]

/-- A `Read` into a non-empty buffer, with no byte available, reports the end error
and leaves the buffer as it was. -/
theorem Read_end (c : Conn) (b : List UInt8) (hb : b ≠ []) (ha : avail c.incoming = []) :
    ∃ l, c.Read b = ⟨b, 0, some (endError c), { c with incoming := l }⟩ ∧
      (afterData c.incoming = [] → l = c.incoming) := by
  unfold Conn.Read
  rw [if_neg hb]
  cases hp : pendingEvent c.incoming with
  | none =>
    obtain ⟨h1, h2⟩ := pendingEvent_none hp
    exact ⟨c.incoming, by simp [endError, h2], fun _ => rfl⟩
  | some pr =>
    obtain ⟨ev, rest⟩ := pr
    cases ev with
    | fail e =>
      obtain ⟨h1, h2⟩ := pendingEvent_fail hp
      exact ⟨rest, by simp [endError, h2], fun h => by simp [h2] at h⟩
    | data seg =>
      obtain ⟨hseg, hav, haf⟩ := pendingEvent_data hp
      rw [ha] at hav
      cases seg with
      | nil => exact absurd rfl hseg
      | cons x xs => simp at hav

theorem avail_map_data (chunks : List (List UInt8)) :
    avail (chunks.map ReadEvent.data) = chunks.flatten := by
  induction chunks with
  | nil => rfl
  | cons s rest ih => simp [avail, ih]

theorem afterData_map_data (chunks : List (List UInt8)) :
    afterData (chunks.map ReadEvent.data) = [] := by
  induction chunks with
  | nil => rfl
  | cons s rest ih => simp [afterData, ih]

/-! ## Lemmas on `messageLength` -/

/-- Scanning: with `pre ++ ':' :: post` available and no ':' in `pre`, the loop
stops after `pre.length + 1` reads and parses what it gathered. -/
theorem messageLengthLoop_scan (pre post : List UInt8) :
    ∀ (fuel : Nat) (c : Conn) (acc tmp : List UInt8), tmp.length = 1 →
      avail c.incoming = pre ++ 58 :: post → 58 ∉ pre → pre.length + 1 ≤ fuel →
      ∃ l, messageLengthLoop fuel c acc tmp = some (Atoi (acc ++ pre), { c with incoming := l }) ∧
        avail l = post ∧ afterData l = afterData c.incoming := by
  induction pre with
  | nil =>
    intro fuel c acc tmp htmp hav _ hfuel
    obtain ⟨k, rfl⟩ : ∃ k, fuel = k + 1 := ⟨fuel - 1, by simp at hfuel; omega⟩
    have hb : tmp ≠ [] := by intro h; simp [h] at htmp
    obtain ⟨n, l, h1, h2, h3, hr, hl, hd⟩ := Read_avail c tmp hb (by simp [hav])
    have hn : n = 1 := by omega
    subst hn
    refine ⟨l, ?_, ?_, hd⟩
    · simp only [messageLengthLoop, hr, hav, List.nil_append]
      have : List.drop 1 tmp = [] := by
        apply List.drop_eq_nil_of_le; omega
      simp [this]
    · simpa [hav] using hl
  | cons x xs ih =>
    intro fuel c acc tmp htmp hav hno hfuel
    obtain ⟨k, rfl⟩ : ∃ k, fuel = k + 1 := ⟨fuel - 1, by simp at hfuel; omega⟩
    have hb : tmp ≠ [] := by intro h; simp [h] at htmp
    obtain ⟨n, l, h1, h2, h3, hr, hl, hd⟩ := Read_avail c tmp hb (by simp [hav])
    have hn : n = 1 := by omega
    subst hn
    have hx : x ≠ 58 := by
      intro h; apply hno; simp [h]
    have hxs : (58 : UInt8) ∉ xs := by
      intro h; apply hno; simp [h]
    have hdrop : List.drop 1 tmp = [] := by
      apply List.drop_eq_nil_of_le; omega
    obtain ⟨l2, hloop, hl2, hd2⟩ := ih k { c with incoming := l } (acc ++ [x]) [x] rfl
      (by simpa [hav] using hl) hxs (by simp at hfuel; omega)
    refine ⟨l2, ?_, hl2, by simpa [hd] using hd2⟩
    simp only [messageLengthLoop, hr, hav]
    simp [hdrop, hx]
    simpa using hloop

/-- Spinning: once every byte was delivered without a ':' and the connection
reports `io.EOF`, no number of iterations ends the loop. -/
theorem messageLengthLoop_spin :
    ∀ (fuel : Nat) (c : Conn) (acc tmp : List UInt8), tmp.length = 1 → tmp ≠ [58] →
      58 ∉ avail c.incoming → afterData c.incoming = [] → c.atEnd = Error.EOF →
      messageLengthLoop fuel c acc tmp = none := by
  intro fuel
  induction fuel with
  | zero => intros; rfl
  | succ k ih =>
    intro c acc tmp htmp hne hno haf hend
    have hb : tmp ≠ [] := by intro h; simp [h] at htmp
    by_cases ha : avail c.incoming = []
    · obtain ⟨l, hr, hl⟩ := Read_end c tmp hb ha
      have hl2 := hl haf
      subst hl2
      have he : endError c = Error.EOF := by simp [endError, haf, hend]
      simp only [messageLengthLoop, hr, he]
      simp [hne]
      exact ih c (acc ++ tmp) tmp htmp hne hno haf hend
    · obtain ⟨n, l, h1, h2, h3, hr, hl, hd⟩ := Read_avail c tmp hb ha
      have hn : n = 1 := by omega
      subst hn
      have hdrop : List.drop 1 tmp = [] := by
        apply List.drop_eq_nil_of_le; omega
      obtain ⟨x, xs, hxs⟩ := List.exists_cons_of_ne_nil ha
      have hx : x ≠ 58 := by
        intro h; apply hno; simp [hxs, h]
      simp only [messageLengthLoop, hr, hxs]
      simp [hdrop, hx]
      apply ih
      · rfl
      · simpa using hx
      · show (58 : UInt8) ∉ avail l
        rw [hl, hxs]
        intro h; apply hno; rw [hxs]; simp at h ⊢; exact Or.inr h
      · show afterData l = []
        rw [hd, haf]
      · exact hend

/-! ## Lemmas on `io.ReadFull` -/

theorem readAtLeastLoop_err (min k : Nat) (c : Conn) (buf : List UInt8) (n : Nat) (e : Error) :
    readAtLeastLoop min k c buf n (some e) = (buf, n, some e, c) := by
  cases k <;> simp [readAtLeastLoop]

/-- Filling: with at least the missing bytes available the loop fills the buffer
with them and stops without an error. -/
theorem readAtLeastLoop_fill (min : Nat) :
    ∀ (k : Nat) (c : Conn) (buf : List UInt8) (n : Nat) (data more : List UInt8),
      buf.length = min → n ≤ min → min - n ≤ k →
      avail c.incoming = data ++ more → data.length = min - n →
      ∃ l, readAtLeastLoop min k c buf n none = (buf.take n ++ data, min, none, { c with incoming := l }) ∧
        avail l = more ∧ afterData l = afterData c.incoming := by
  intro k
  induction k with
  | zero =>
    intro c buf n data more hbuf hn hk hav hdata
    have hnm : n = min := by omega
    have hd : data = [] := List.length_eq_zero.mp (by omega)
    subst hd
    refine ⟨c.incoming, ?_, by simpa using hav, rfl⟩
    simp [readAtLeastLoop, hnm, ← hbuf]
  | succ k ih =>
    intro c buf n data more hbuf hn hk hav hdata
    by_cases hlt : n < min
    · have hb : buf.drop n ≠ [] := by
        intro h
        have := congrArg List.length h
        simp at this; omega
      have hne : avail c.incoming ≠ [] := by
        intro h
        have := congrArg List.length h
        rw [hav] at this
        simp only [List.length_append, List.length_nil] at this; omega
      obtain ⟨nn, l, h1, h2, h3, hr, hl, hd⟩ := Read_avail c (buf.drop n) hb hne
      have h2x : nn ≤ min - n := by simpa [hbuf] using h2
      have htake : (avail c.incoming).take nn = data.take nn := by
        rw [hav, List.take_append_of_le_length (by omega)]
      have hdrop : (avail c.incoming).drop nn = data.drop nn ++ more := by
        rw [hav, List.drop_append_of_le_length (by omega)]
      obtain ⟨l2, hloop, hl2, hd2⟩ := ih { c with incoming := l }
        (buf.take n ++ (data.take nn ++ (buf.drop n).drop nn)) (n + nn) (data.drop nn) more
        (by simp [hbuf]; omega) (by omega) (by omega) (by simpa [hdrop] using hl)
        (by simp; omega)
      refine ⟨l2, ?_, hl2, by simpa [hd] using hd2⟩
      rw [readAtLeastLoop, if_pos ⟨hlt, rfl⟩]
      simp only [hr, htake]
      rw [hloop]
      have e1 : (buf.take n ++ (data.take nn ++ (buf.drop n).drop nn)).take (n + nn)
          = buf.take n ++ data.take nn := by
        rw [← List.append_assoc]
        apply List.take_left'
        simp [hbuf]; omega
      rw [e1, List.append_assoc, List.take_append_drop]
    · have hnm : n = min := by omega
      have hd : data = [] := List.length_eq_zero.mp (by omega)
      subst hd
      refine ⟨c.incoming, ?_, by simpa using hav, rfl⟩
      rw [readAtLeastLoop, if_neg (by omega)]
      simp [hnm, ← hbuf]

/-- Running dry: with fewer bytes available than are missing, the loop stops on
the end error of the connection, short of `min`. -/
theorem readAtLeastLoop_short (min : Nat) :
    ∀ (k : Nat) (c : Conn) (buf : List UInt8) (n : Nat),
      buf.length = min → min - n ≤ k → (avail c.incoming).length < min - n →
      ∃ buf1 c1, readAtLeastLoop min k c buf n none
        = (buf1, n + (avail c.incoming).length, some (endError c), c1) := by
  intro k
  induction k with
  | zero => intro c buf n hbuf hk hav; omega
  | succ k ih =>
    intro c buf n hbuf hk hav
    have hlt : n < min := by omega
    have hb : buf.drop n ≠ [] := by
      intro h
      have := congrArg List.length h
      simp at this; omega
    rw [readAtLeastLoop, if_pos ⟨hlt, rfl⟩]
    by_cases ha : avail c.incoming = []
    · obtain ⟨l, hr, _⟩ := Read_end c (buf.drop n) hb ha
      simp only [hr, readAtLeastLoop_err, ha]
      exact ⟨_, _, rfl⟩
    · obtain ⟨nn, l, h1, h2, h3, hr, hl, hd⟩ := Read_avail c (buf.drop n) hb ha
      have h2x : nn ≤ min - n := by simpa [hbuf] using h2
      simp only [hr]
      obtain ⟨buf1, c1, hloop⟩ := ih { c with incoming := l }
        (buf.take n ++ ((avail c.incoming).take nn ++ (buf.drop n).drop nn)) (n + nn)
        (by simp [hbuf]; omega) (by omega) (by simp [hl]; omega)
      refine ⟨buf1, c1, ?_⟩
      rw [hloop]
      have e1 : endError { c with incoming := l } = endError c := by
        simp [endError, hd]
      have e2 : (avail ({ c with incoming := l } : Conn).incoming).length
          = (avail c.incoming).length - nn := by
        simp [hl]
      rw [e1, e2]
      have : n + nn + ((avail c.incoming).length - nn) = n + (avail c.incoming).length := by omega
      rw [this]

/-- The call `io.ReadFull` succeeds with exactly the next `len(buf)` bytes when that many are available. -/
theorem ReadFull_fill (c : Conn) (buf data more : List UInt8)
    (hav : avail c.incoming = data ++ more) (hlen : data.length = buf.length) :
    ∃ l, ReadFull c buf = (data, buf.length, none, { c with incoming := l }) ∧
      avail l = more ∧ afterData l = afterData c.incoming := by
  obtain ⟨l, hloop, hl, hd⟩ := readAtLeastLoop_fill buf.length buf.length c buf 0 data more rfl
    (by omega) (by omega) hav (by omega)
  refine ⟨l, ?_, hl, hd⟩
  simp [ReadFull, hloop]

/-- The call `io.ReadFull` fails when fewer than `len(buf)` bytes are available:
with `io.ErrUnexpectedEOF` after some bytes and `io.EOF`, else with the end error. -/
theorem ReadFull_short (c : Conn) (buf : List UInt8)
    (hav : (avail c.incoming).length < buf.length) :
    ∃ buf1 c1, ReadFull c buf = (buf1, (avail c.incoming).length,
      some (if avail c.incoming ≠ [] ∧ endError c = Error.EOF then Error.ErrUnexpectedEOF
        else endError c), c1) := by
  obtain ⟨buf1, c1, hloop⟩ := readAtLeastLoop_short buf.length buf.length c buf 0 rfl
    (by omega) (by omega)
  refine ⟨buf1, c1, ?_⟩
  simp only [ReadFull, hloop, Nat.zero_add]
  rw [if_neg (by omega)]
  by_cases h : avail c.incoming = []
  · simp [h]
  · have hpos : (avail c.incoming).length > 0 := List.length_pos.mpr h
    by_cases he : endError c = Error.EOF
    · simp [h, he, hpos]
    · simp [h, he, hpos]

/-- The round counter of `readAtLeastLoop` never cuts the Go loop short: started
with `min - n` rounds or more, it stops only when `n < min && err == nil` is false. -/
theorem readAtLeastLoop_done (min : Nat) :
    ∀ (k : Nat) (c : Conn) (buf : List UInt8) (n : Nat) (err : Option Error),
      buf.length = min → min - n ≤ k →
      ¬ ((readAtLeastLoop min k c buf n err).2.1 < min ∧
        (readAtLeastLoop min k c buf n err).2.2.1 = none) := by
  intro k
  induction k with
  | zero =>
    intro c buf n err _ hk
    simp only [readAtLeastLoop]
    omega
  | succ k ih =>
    intro c buf n err hbuf hk
    by_cases hcond : n < min ∧ err = none
    · rw [readAtLeastLoop, if_pos hcond]
      have hb : buf.drop n ≠ [] := by
        intro h
        have := congrArg List.length h
        simp at this; omega
      by_cases ha : avail c.incoming = []
      · obtain ⟨l, hr, _⟩ := Read_end c (buf.drop n) hb ha
        simp only [hr, readAtLeastLoop_err]
        simp
      · obtain ⟨nn, l, h1, h2, h3, hr, _, _⟩ := Read_avail c (buf.drop n) hb ha
        have h2x : nn ≤ min - n := by simpa [hbuf] using h2
        simp only [hr]
        apply ih
        · simp [hbuf]; omega
        · omega
    · rw [readAtLeastLoop, if_neg hcond]
      exact hcond

/-! ## Lemmas on `strconv.Atoi` -/

theorem digit_sub_gt_iff (c : UInt8) : c - 48 > 9 ↔ ¬ (48 ≤ c ∧ c ≤ 57) := by
  cases c with
  | mk v => revert v; decide

theorem enc_digit (d : Nat) (hd : d < 10) :
    (48 ≤ UInt8.ofNat (48 + d) ∧ UInt8.ofNat (48 + d) ≤ 57) ∧
      (UInt8.ofNat (48 + d) - 48).toNat = d ∧
      UInt8.ofNat (48 + d) ≠ 45 ∧ UInt8.ofNat (48 + d) ≠ 43 ∧ UInt8.ofNat (48 + d) ≠ 58 := by
  interval_cases d <;> decide

theorem foldl_digits_le (ds : List Nat) :
    ∀ a : Nat, a ≤ ds.foldl (fun a d => a * 10 + d) a := by
  induction ds with
  | nil => intro a; simp
  | cons d ds ih =>
    intro a
    simp only [List.foldl_cons]
    exact le_trans (by omega) (ih (a * 10 + d))

theorem atoiFast_digits (ds : List Nat) (hds : ∀ d ∈ ds, d < 10) :
    ∀ a : Nat, atoiFast (ds.map (fun d => UInt8.ofNat (48 + d))) a
      = some (ds.foldl (fun a d => a * 10 + d) a) := by
  induction ds with
  | nil => intro a; rfl
  | cons d ds ih =>
    intro a
    obtain ⟨h1, h2, _⟩ := enc_digit d (hds d (by simp))
    have h3 : ¬ (UInt8.ofNat (48 + d) - 48 > 9) := by
      rw [digit_sub_gt_iff]; exact not_not.mpr h1
    simp only [List.map_cons, atoiFast, if_neg h3, h2, List.foldl_cons]
    exact ih (fun x hx => hds x (by simp [hx])) _

theorem parseUintLoop_digits (ds : List Nat) (hds : ∀ d ∈ ds, d < 10) :
    ∀ a : Nat, ds.foldl (fun a d => a * 10 + d) a < 2 ^ 63 →
      parseUintLoop (ds.map (fun d => UInt8.ofNat (48 + d))) a
        = Except.ok (ds.foldl (fun a d => a * 10 + d) a) := by
  induction ds with
  | nil => intro a _; rfl
  | cons d ds ih =>
    intro a ha
    obtain ⟨h1, h2, _⟩ := enc_digit d (hds d (by simp))
    simp only [List.foldl_cons] at ha ⊢
    have hle := foldl_digits_le ds (a * 10 + d)
    have hsmall : a * 10 + d < 2 ^ 63 := lt_of_le_of_lt hle ha
    simp only [List.map_cons, parseUintLoop, if_pos h1, h2]
    have e1 : ¬ (a ≥ (2 ^ 64 - 1) / 10 + 1) := by
      norm_num at hsmall ⊢; omega
    have e2 : (a * 10 + d) % 2 ^ 64 = a * 10 + d := by
      apply Nat.mod_eq_of_lt
      norm_num at hsmall ⊢; omega
    rw [if_neg e1, e2]
    have e3 : ¬ (a * 10 + d < a * 10 ∨ a * 10 + d > 2 ^ 64 - 1) := by
      norm_num at hsmall ⊢; omega
    rw [if_neg e3]
    exact ih (fun x hx => hds x (by simp [hx])) _ ha

theorem foldl_digits_reverse (n : Nat) :
    ((Nat.digits 10 n).reverse).foldl (fun a d => a * 10 + d) 0 = n := by
  rw [List.foldl_reverse]
  have h := Nat.ofDigits_digits 10 n
  rw [Nat.ofDigits_eq_foldr] at h
  have e : (fun (x y : Nat) => y * 10 + x) = (fun (x y : Nat) => (x : Nat) + 10 * y) := by
    funext x y; omega
  rw [e]
  simpa using h

/-- The decimal text of `n` is a non-empty list of encoded digits whose value is `n`. -/
theorem decimalASCII_digits (n : Nat) :
    ∃ d ds, (∀ x ∈ d :: ds, x < 10) ∧
      decimalASCII n = (d :: ds).map (fun d => UInt8.ofNat (48 + d)) ∧
      (d :: ds).foldl (fun a d => a * 10 + d) 0 = n := by
  by_cases h0 : n = 0
  · subst h0
    exact ⟨0, [], by simp, by simp [decimalASCII], by simp⟩
  · have hne : (Nat.digits 10 n).reverse ≠ [] := by
      simpa using (Nat.digits_ne_nil_iff_ne_zero.mpr h0)
    obtain ⟨d, ds, hd⟩ := List.exists_cons_of_ne_nil hne
    refine ⟨d, ds, ?_, ?_, ?_⟩
    · intro x hx
      rw [← hd] at hx
      exact Nat.digits_lt_base (by norm_num) (List.mem_reverse.mp hx)
    · simp [decimalASCII, h0, hd]
    · rw [← hd]; exact foldl_digits_reverse n

/-- The call `Atoi` reads back the decimal text of every length that fits an `int`. -/
theorem Atoi_decimalASCII (n : Nat) (hn : n < 2 ^ 63) :
    Atoi (decimalASCII n) = Except.ok (n : Int) := by
  obtain ⟨d, ds, hds, henc, hval⟩ := decimalASCII_digits n
  obtain ⟨_, _, h45, h43, _⟩ := enc_digit d (hds d (by simp))
  have hfast := atoiFast_digits (d :: ds) hds 0
  have hslow := parseUintLoop_digits (d :: ds) hds 0 (by rw [hval]; exact hn)
  rw [hval] at hfast hslow
  rw [henc]
  simp only [List.map_cons] at hfast hslow ⊢
  unfold Atoi
  split
  · simp only [h45, h43, or_self, if_false, false_and, hfast]
  · simp only [ParseInt, ParseUint, h45, h43, or_self, if_false, hslow]
    have : ¬ ((n : Nat) ≥ 2 ^ (intSize - 1)) := by
      simp only [intSize]; omega
    simp [this]

theorem decimalASCII_no_colon (n : Nat) : (58 : UInt8) ∉ decimalASCII n := by
  obtain ⟨d, ds, hds, henc, _⟩ := decimalASCII_digits n
  rw [henc]
  intro h
  obtain ⟨x, hx, he⟩ := List.mem_map.mp h
  exact (enc_digit x (hds x hx)).2.2.2.2 he

theorem atoiFast_none (s : List UInt8) (h : s.all isDigit = false) :
    ∀ a : Nat, atoiFast s a = none := by
  induction s with
  | nil => simp at h
  | cons c s ih =>
    intro a
    by_cases hc : 48 ≤ c ∧ c ≤ 57
    · have h3 : ¬ (c - 48 > 9) := by
        rw [digit_sub_gt_iff]; exact not_not.mpr hc
      simp only [atoiFast, if_neg h3]
      apply ih
      simpa [isDigit, hc] using h
    · have h3 : c - 48 > 9 := (digit_sub_gt_iff c).mpr hc
      simp only [atoiFast, if_pos h3]

theorem parseUintLoop_error (s : List UInt8) (h : s.all isDigit = false) :
    ∀ a : Nat, ∃ k, parseUintLoop s a = Except.error k := by
  induction s with
  | nil => simp at h
  | cons c s ih =>
    intro a
    by_cases hc : 48 ≤ c ∧ c ≤ 57
    · simp only [parseUintLoop, if_pos hc]
      split
      · exact ⟨true, rfl⟩
      · split
        · exact ⟨true, rfl⟩
        · apply ih
          simpa [isDigit, hc] using h
    · simp only [parseUintLoop, if_neg hc]
      exact ⟨false, rfl⟩

/-- The call `Atoi` fails on every text that is not an optionally signed decimal number. -/
theorem Atoi_error (s : List UInt8) (h : signedDecimal s = false) :
    ∃ k, Atoi s = Except.error (Error.NumError s k) := by
  unfold Atoi
  split
  · cases s with
    | nil => exact ⟨_, rfl⟩
    | cons c r =>
      by_cases hs : c = 45 ∨ c = 43
      · have hs2 : c = 43 ∨ c = 45 := hs.symm
        simp only [signedDecimal, if_pos hs2] at h
        simp only [hs, if_true, true_and]
        split
        · exact ⟨_, rfl⟩
        · rename_i hlen
          have hr : r ≠ [] := by
            intro h0; apply hlen; simp [h0]
          have hall : r.all isDigit = false := by simpa [hr] using h
          rw [atoiFast_none r hall 0]
          exact ⟨_, rfl⟩
      · have hs2 : ¬ (c = 43 ∨ c = 45) := fun x => hs x.symm
        simp only [signedDecimal, if_neg hs2] at h
        simp only [hs, if_false, false_and]
        rw [atoiFast_none (c :: r) h 0]
        exact ⟨_, rfl⟩
  · cases s with
    | nil => exact ⟨_, rfl⟩
    | cons c r =>
      by_cases hs : c = 43 ∨ c = 45
      · simp only [signedDecimal, if_pos hs] at h
        simp only [ParseInt, ParseUint, if_pos hs]
        by_cases hr : r = []
        · simp [hr]
        · have hall : r.all isDigit = false := by simpa [hr] using h
          obtain ⟨k, hk⟩ := parseUintLoop_error r hall 0
          simp [hr, hk]
      · simp only [signedDecimal, if_neg hs] at h
        simp only [ParseInt, ParseUint, if_neg hs]
        obtain ⟨k, hk⟩ := parseUintLoop_error (c :: r) h 0
        simp [hk]

/-! ## The frame reader on well-formed, truncated and malformed streams -/

/-- One frame: with `decimal(len p) ':' p` at the front of the stream, `read`
returns `p` and leaves exactly what follows the frame. -/
theorem read_frame (p more : List UInt8) (hp : p.length ≤ maxAlloc) (c : Conn)
    (hc : avail c.incoming = decimalASCII p.length ++ 58 :: (p ++ more)) (fuel : Nat)
    (hf : (decimalASCII p.length).length < fuel) :
    ∃ l, read fuel c = some (Outcome.ok p, { c with incoming := l }) ∧
      avail l = more ∧ afterData l = afterData c.incoming := by
  obtain ⟨l1, hm, hl1, hd1⟩ := messageLengthLoop_scan (decimalASCII p.length) (p ++ more) fuel c
    [] [0] rfl hc (decimalASCII_no_colon _) (by omega)
  obtain ⟨l2, hr, hl2, hd2⟩ := ReadFull_fill { c with incoming := l1 }
    (List.replicate p.length 0) p more hl1 (by simp)
  refine ⟨l2, ?_, hl2, by simpa [hd1] using hd2⟩
  simp only [read, messageLength, hm, List.nil_append, Atoi_decimalASCII _ (lt_of_le_of_lt hp (by decide))]
  rw [if_neg (by simp only [maxAlloc] at hp ⊢; omega)]
  simp only [Int.toNat_ofNat, hr]

/-- A frame cut short: with fewer payload bytes than declared before the stream
ends, `read` returns the error of `io.ReadFull`. -/
theorem read_short (n : Nat) (hn : n ≤ maxAlloc) (body : List UInt8) (hb : body.length < n)
    (c : Conn) (hc : avail c.incoming = decimalASCII n ++ 58 :: body) (fuel : Nat)
    (hf : (decimalASCII n).length < fuel) :
    ∃ c1, read fuel c = some (Outcome.error
      (if body ≠ [] ∧ endError c = Error.EOF then Error.ErrUnexpectedEOF else endError c), c1) := by
  obtain ⟨l1, hm, hl1, hd1⟩ := messageLengthLoop_scan (decimalASCII n) body fuel c
    [] [0] rfl hc (decimalASCII_no_colon _) (by omega)
  obtain ⟨buf1, c1, hr⟩ := ReadFull_short { c with incoming := l1 } (List.replicate n 0)
    (by simpa [hl1] using hb)
  have he : endError { c with incoming := l1 } = endError c := by simp [endError, hd1]
  refine ⟨c1, ?_⟩
  simp only [read, messageLength, hm, List.nil_append, Atoi_decimalASCII _ (lt_of_le_of_lt hn (by decide))]
  rw [if_neg (by simp only [maxAlloc] at hn ⊢; omega)]
  simp only [Int.toNat_ofNat, hr, hl1, he]

/-- A length that does not parse: `read` returns the `NumError` of `Atoi`. -/
theorem read_bad_length (pre post : List UInt8) (hno : 58 ∉ pre) (hbad : signedDecimal pre = false)
    (c : Conn) (hc : avail c.incoming = pre ++ 58 :: post) (fuel : Nat) (hf : pre.length < fuel) :
    ∃ k c1, read fuel c = some (Outcome.error (Error.NumError pre k), c1) := by
  obtain ⟨l1, hm, _, _⟩ := messageLengthLoop_scan pre post fuel c [] [0] rfl hc hno (by omega)
  obtain ⟨k, hk⟩ := Atoi_error pre hbad
  refine ⟨k, { c with incoming := l1 }, ?_⟩
  simp only [read, messageLength, hm, List.nil_append, hk]

/-- C1. Frame round trip: for every payload `p` (the empty one included; no Go
slice is longer than `maxAlloc` bytes), `read` on a stream whose content is the
decimal ASCII of `len(p)`, the byte ':' and `p` returns exactly `p` and no
error, as soon as the loop is given one iteration per byte of the length
field and one for the ':'. -/
theorem read_roundtrip (p : List UInt8) (hp : p.length ≤ maxAlloc) (c : Conn)
    (hc : avail c.incoming = decimalASCII p.length ++ 58 :: p) (fuel : Nat)
    (hf : (decimalASCII p.length).length < fuel) :
    (read fuel c).map Prod.fst = some (Outcome.ok p) := by
  obtain ⟨l, hr, _, _⟩ := read_frame p [] hp c (by simpa using hc) fuel hf
  rw [hr]; rfl

/-- Witness of C1 at the empty payload, delivered as the single segment `0:`. -/
theorem read_roundtrip_witness :
    (read 2 (Conn.ofSegments [[48, 58]])).map Prod.fst = some (Outcome.ok []) :=
  read_roundtrip [] (by decide) (Conn.ofSegments [[48, 58]])
    (by simp [Conn.ofSegments, avail, decimalASCII]) 2 (by simp [decimalASCII])

/-- C2. Incremental delivery: for every payload `p` and every way `chunks` of
cutting the frame `decimal(len p) ':' p` into the segments that successive
reads of the stream deliver (one segment, one byte per segment, anything in
between), `read` returns `p` and no error. -/
theorem read_incremental (p : List UInt8) (hp : p.length ≤ maxAlloc) (chunks : List (List UInt8))
    (hch : chunks.flatten = frame p) (c : Conn) (hc : c.incoming = chunks.map ReadEvent.data)
    (fuel : Nat) (hf : (decimalASCII p.length).length < fuel) :
    (read fuel c).map Prod.fst = some (Outcome.ok p) := by
  obtain ⟨l, hr, _, _⟩ := read_frame p [] hp c
    (by rw [hc, avail_map_data, hch]; simp [frame]) fuel hf
  rw [hr]; rfl

/-- Witness of C2: the frame `2:hi` delivered one byte per read. -/
theorem read_incremental_witness :
    (read 2 (Conn.ofSegments [[50], [58], [104], [105]])).map Prod.fst
      = some (Outcome.ok [104, 105]) :=
  read_incremental [104, 105] (by decide) [[50], [58], [104], [105]]
    (by simp [frame, decimalASCII]) (Conn.ofSegments [[50], [58], [104], [105]])
    rfl 2 (by simp [decimalASCII])

/-- Truncation within the allocation limit: for every declared length `n` up to
`maxAlloc` and every stream that holds `decimal(n) ':'` and then fewer than `n`
bytes before it ends, `read` returns an error and no payload:
`io.ErrUnexpectedEOF` when some payload bytes came and the stream ended with
`io.EOF`, otherwise the error the stream ended with. -/
theorem read_truncated (n : Nat) (hn : n ≤ maxAlloc) (body : List UInt8) (hb : body.length < n)
    (c : Conn) (hc : avail c.incoming = decimalASCII n ++ 58 :: body) (fuel : Nat)
    (hf : (decimalASCII n).length < fuel) :
    (read fuel c).map Prod.fst = some (Outcome.error
      (if body ≠ [] ∧ endError c = Error.EOF then Error.ErrUnexpectedEOF else endError c)) := by
  obtain ⟨c1, hr⟩ := read_short n hn body hb c hc fuel hf
  rw [hr]; rfl

/-- Truncation at the length field `10` followed by the five bytes `hello` and end of stream. -/
theorem read_truncated_ten_five :
    (read 3 (Conn.ofSegments [[49, 48, 58, 104, 101, 108, 108, 111]])).map Prod.fst
      = some (Outcome.error Error.ErrUnexpectedEOF) := by
  have h := read_truncated 10 (by decide) [104, 101, 108, 108, 111] (by decide)
    (Conn.ofSegments [[49, 48, 58, 104, 101, 108, 108, 111]])
    (by simp [Conn.ofSegments, avail, decimalASCII]) 3 (by simp [decimalASCII])
  simpa [endError, Conn.ofSegments, afterData] using h

/-- C3 fails on the code: the peer sends the length field `281474976710657`
(2^48 + 1), the byte ':' and the five bytes `hello`, and closes. Fewer bytes
than declared follow, yet `read` does not return an error: `make` panics on
the declared length before any payload byte is read. -/
theorem read_huge_length_panics :
    (read 16 (Conn.ofSegments
        [[50, 56, 49, 52, 55, 52, 57, 55, 54, 55, 49, 48, 54, 53, 55, 58,
          104, 101, 108, 108, 111]])).map Prod.fst
      = some (Outcome.panic "runtime error: makeslice: len out of range") := by
  decide

/-- C4 (as stated) fails: the length field `+5` is not all digits, yet `read`
accepts the frame `+5:hello` and returns the payload `hello`. -/
theorem read_plus_sign_accepted :
    ([43, 53] : List UInt8).all isDigit = false ∧
      (read 3 (Conn.ofSegments [[43, 53, 58, 104, 101, 108, 108, 111]])).map Prod.fst
        = some (Outcome.ok [104, 101, 108, 108, 111]) := by
  decide

/-- C4 (amended). Malformed length field: for every stream whose bytes before the
first ':' are not an optional sign `+` or `-` followed by one or more ASCII
digits (for example empty, `ab`, `+`, `5a`), `read` fails with the
`strconv` number error for those bytes and yields no payload; so the length
field is accepted only when it is an optionally signed decimal integer. -/
theorem read_malformed (pre post : List UInt8) (hno : 58 ∉ pre)
    (hbad : signedDecimal pre = false) (c : Conn)
    (hc : avail c.incoming = pre ++ 58 :: post) (fuel : Nat) (hf : pre.length < fuel) :
    ∃ k, (read fuel c).map Prod.fst = some (Outcome.error (Error.NumError pre k)) := by
  obtain ⟨k, c1, hr⟩ := read_bad_length pre post hno hbad c hc fuel hf
  exact ⟨k, by rw [hr]; rfl⟩

/-- Witness of C4 (amended): the length field `ab`. -/
theorem read_malformed_witness :
    ∃ k, (read 3 (Conn.ofSegments [[97, 98, 58, 120]])).map Prod.fst
      = some (Outcome.error (Error.NumError [97, 98] k)) :=
  read_malformed [97, 98] [120] (by decide) (by decide) (Conn.ofSegments [[97, 98, 58, 120]])
    (by simp [Conn.ofSegments, avail]) 3 (by decide)

/-- C5 fails on the code: when the peer sends `12` and closes, `read` (in
`messageLength`) has not returned after any number of loop iterations. -/
theorem read_spins_at_end_of_stream (fuel : Nat) :
    read fuel (Conn.ofSegments [[49, 50]]) = none := by
  have h := messageLengthLoop_spin fuel (Conn.ofSegments [[49, 50]]) [] [0] rfl (by decide)
    (by decide) (by decide) rfl
  simp [read, messageLength, h]

/-! ## The transport: message ids -/

theorem Receive_fields (fuel : Nat) (t t1 : Transport) (out : Outcome (List UInt8))
    (h : t.Receive fuel = some (out, t1)) :
    t1.messageID = t.messageID ∧ t1.de = t.de ∧ (t.conn = none → t1 = t) ∧
      (t1.conn = none → t.conn = none) := by
  unfold Transport.Receive at h
  split at h
  · rename_i hc
    simp only [Option.some.injEq, Prod.mk.injEq] at h
    obtain ⟨_, rfl⟩ := h
    exact ⟨rfl, rfl, fun _ => rfl, fun _ => hc⟩
  · rename_i c hc
    split at h
    · exact absurd h (by simp)
    · simp only [Option.some.injEq, Prod.mk.injEq] at h
      obtain ⟨_, rfl⟩ := h
      exact ⟨rfl, rfl, fun h0 => by simp [hc] at h0, fun h0 => by simp at h0⟩

theorem encodedIds_append (a b : List Effect) :
    encodedIds (a ++ b) = encodedIds a ++ encodedIds b := by
  induction a with
  | nil => rfl
  | cons x xs ih => cases x <;> simp [encodedIds, ih]

theorem encodedIds_logged (debug : Bool) (buf : List UInt8) (log : List Effect)
    (h : (if debug then (debugLine buf).map (fun line => [Effect.println line]) else some [])
      = some log) : encodedIds log = [] := by
  cases debug with
  | false =>
    simp only [Bool.false_eq_true, if_false, Option.some.injEq] at h
    subst h; rfl
  | true =>
    simp only [if_true, Option.map_eq_some'] at h
    obtain ⟨line, _, rfl⟩ := h
    rfl

/-- One `Send` on a transport with a codec: the id handed to the encoder is the
incremented counter, which is also the counter afterwards. -/
theorem Send_id (debug : Bool) (fuel : Nat) (t t1 : Transport) (d : Codec) (command : String)
    (values : Any) (out : Outcome Response) (eff : List Effect) (hd : t.de = some d)
    (h : t.Send debug fuel command values = some (out, t1, eff)) :
    t1.de = some d ∧ t1.messageID = wrapInt (t.messageID + 1) ∧
      encodedIds eff = [wrapInt (t.messageID + 1)] := by
  unfold Transport.Send at h
  simp only [hd] at h
  split at h
  · simp only [Option.some.injEq, Prod.mk.injEq] at h
    obtain ⟨_, rfl, rfl⟩ := h
    exact ⟨rfl, rfl, rfl⟩
  · split at h
    · simp only [Option.some.injEq, Prod.mk.injEq] at h
      obtain ⟨_, rfl, rfl⟩ := h
      exact ⟨rfl, rfl, rfl⟩
    · simp only [Option.some.injEq, Prod.mk.injEq] at h
      obtain ⟨_, rfl, rfl⟩ := h
      exact ⟨rfl, rfl, rfl⟩
    · split at h
      · exact absurd h (by simp)
      · rename_i hr
        obtain ⟨h1, h2, _⟩ := Receive_fields _ _ _ _ hr
        simp only [Option.some.injEq, Prod.mk.injEq] at h
        obtain ⟨_, rfl, rfl⟩ := h
        exact ⟨by rw [h2], by rw [h1], rfl⟩
      · rename_i hr
        obtain ⟨h1, h2, _⟩ := Receive_fields _ _ _ _ hr
        simp only [Option.some.injEq, Prod.mk.injEq] at h
        obtain ⟨_, rfl, rfl⟩ := h
        exact ⟨by rw [h2], by rw [h1], rfl⟩
      · rename_i hr
        obtain ⟨h1, h2, _⟩ := Receive_fields _ _ _ _ hr
        split at h
        · simp only [Option.some.injEq, Prod.mk.injEq] at h
          obtain ⟨_, rfl, rfl⟩ := h
          exact ⟨by rw [h2], by rw [h1], rfl⟩
        · rename_i log hlog
          have hl := encodedIds_logged _ _ _ hlog
          split at h
          · simp only [Option.some.injEq, Prod.mk.injEq] at h
            obtain ⟨_, rfl, rfl⟩ := h
            exact ⟨by rw [h2], by rw [h1], by rw [encodedIds_append, hl]; rfl⟩
          · simp only [Option.some.injEq, Prod.mk.injEq] at h
            obtain ⟨_, rfl, rfl⟩ := h
            exact ⟨by rw [h2], by rw [h1], by rw [encodedIds_append, hl]; rfl⟩

theorem wrapInt_succ (m : Nat) (h : m + 1 < 2 ^ 63) : wrapInt ((m : Int) + 1) = (m : Int) + 1 := by
  unfold wrapInt intSize
  have h1 : ((m : Int) + 1 + 2 ^ (64 - 1)) % 2 ^ 64 = (m : Int) + 1 + 2 ^ (64 - 1) := by
    apply Int.emod_eq_of_lt
    · positivity
    · norm_num at h ⊢; omega
  rw [h1]; ring

/-- A run of `Send` calls on a transport with a codec hands consecutive ids to the encoder. -/
theorem sendAll_ids (debug : Bool) (fuel : Nat) (d : Codec) :
    ∀ (cmds : List (String × Any)) (t t2 : Transport) (eff : List Effect) (m : Nat),
      t.de = some d → t.messageID = (m : Int) → m + cmds.length < 2 ^ 63 →
      sendAll debug fuel t cmds = some (t2, eff) →
      encodedIds eff = (List.range' (m + 1) cmds.length).map (fun (k : Nat) => (k : Int)) ∧
        t2.messageID = (m : Int) + (cmds.length : Int) := by
  intro cmds
  induction cmds with
  | nil =>
    intro t t2 eff m _ hm _ h
    simp only [sendAll, Option.some.injEq, Prod.mk.injEq] at h
    obtain ⟨rfl, rfl⟩ := h
    simp [encodedIds, hm]
  | cons cv rest ih =>
    intro t t2 eff m hd hm hlen h
    simp only [List.length_cons] at hlen
    unfold sendAll at h
    split at h
    · exact absurd h (by simp)
    · rename_i out t1 eff1 hs
      obtain ⟨hd1, hm1, he1⟩ := Send_id _ _ _ _ d _ _ _ _ hd hs
      rw [hm, wrapInt_succ m (by omega)] at hm1 he1
      split at h
      · exact absurd h (by simp)
      · rename_i t3 eff2 hrest
        simp only [Option.some.injEq, Prod.mk.injEq] at h
        obtain ⟨rfl, rfl⟩ := h
        obtain ⟨hi1, hi2⟩ := ih t1 t3 eff2 (m + 1) hd1 (by rw [hm1]; push_cast; ring) (by omega) hrest
        refine ⟨?_, ?_⟩
        · rw [encodedIds_append, he1, hi1, List.length_cons]
          simp [List.range'_succ]
        · rw [hi2, List.length_cons]; push_cast; ring

theorem Connect_ok_fields (env : Env) (fuel : Nat) (t t1 : Transport) (addr : String)
    (eff : List Effect) (h : t.Connect env fuel addr = some (Outcome.ok (), t1, eff)) :
    t1.messageID = t.messageID ∧ (∃ d, t1.de = some d) ∧ ∃ c, t1.conn = some c := by
  unfold Transport.Connect at h
  split at h
  · simp at h
  · simp only at h
    split at h
    · simp at h
    · split at h
      · exact absurd h (by simp)
      · simp at h
      · simp at h
      · rename_i t2 hr
        obtain ⟨h1, _, _, h4⟩ := Receive_fields _ _ _ _ hr
        have hc2 : ∃ c, t2.conn = some c := by
          cases hc : t2.conn with
          | none => exact absurd (h4 hc) (by simp)
          | some c => exact ⟨c, rfl⟩
        split at h
        · simp at h
        · simp at h
        · split at h
          · simp at h
          · split at h
            · simp at h
            · rename_i d _
              simp only [Option.some.injEq, Prod.mk.injEq, true_and] at h
              obtain ⟨rfl, _⟩ := h
              exact ⟨h1, ⟨d, rfl⟩, hc2⟩

/-! ## The transport: what reaches the wire -/

theorem Read_line (c : Conn) (b : List UInt8) :
    (c.Read b).conn.outgoing = c.outgoing ∧ (c.Read b).conn.writeErr = c.writeErr := by
  unfold Conn.Read
  split
  · exact ⟨rfl, rfl⟩
  · split <;> exact ⟨rfl, rfl⟩

theorem messageLengthLoop_line :
    ∀ (fuel : Nat) (c c1 : Conn) (acc tmp : List UInt8) (r : Except Error Int),
      messageLengthLoop fuel c acc tmp = some (r, c1) →
      c1.outgoing = c.outgoing ∧ c1.writeErr = c.writeErr := by
  intro fuel
  induction fuel with
  | zero => intro c c1 acc tmp r h; simp [messageLengthLoop] at h
  | succ k ih =>
    intro c c1 acc tmp r h
    obtain ⟨h1, h2⟩ := Read_line c tmp
    simp only [messageLengthLoop] at h
    split at h
    · simp only [Option.some.injEq, Prod.mk.injEq] at h
      obtain ⟨_, rfl⟩ := h
      exact ⟨h1, h2⟩
    · split at h
      · obtain ⟨h3, h4⟩ := ih _ _ _ _ _ h
        exact ⟨h3.trans h1, h4.trans h2⟩
      · simp only [Option.some.injEq, Prod.mk.injEq] at h
        obtain ⟨_, rfl⟩ := h
        exact ⟨h1, h2⟩

theorem readAtLeastLoop_line (min : Nat) :
    ∀ (k : Nat) (c : Conn) (buf : List UInt8) (n : Nat) (err : Option Error),
      (readAtLeastLoop min k c buf n err).2.2.2.outgoing = c.outgoing ∧
        (readAtLeastLoop min k c buf n err).2.2.2.writeErr = c.writeErr := by
  intro k
  induction k with
  | zero => intro c buf n err; exact ⟨rfl, rfl⟩
  | succ k ih =>
    intro c buf n err
    rw [readAtLeastLoop]
    split
    · obtain ⟨h1, h2⟩ := Read_line c (buf.drop n)
      obtain ⟨h3, h4⟩ := ih (c.Read (buf.drop n)).conn
        (buf.take n ++ (c.Read (buf.drop n)).buf) (n + (c.Read (buf.drop n)).n)
        (c.Read (buf.drop n)).err
      exact ⟨h3.trans h1, h4.trans h2⟩
    · exact ⟨rfl, rfl⟩

theorem ReadFull_line (c : Conn) (buf : List UInt8) :
    (ReadFull c buf).2.2.2.outgoing = c.outgoing ∧ (ReadFull c buf).2.2.2.writeErr = c.writeErr := by
  obtain ⟨h1, h2⟩ := readAtLeastLoop_line buf.length buf.length c buf 0 none
  unfold ReadFull
  simp only
  split
  · exact ⟨h1, h2⟩
  · split
    · exact ⟨h1, h2⟩
    · exact ⟨h1, h2⟩

/-- Reading a frame leaves the write side of the connection as it was. -/
theorem read_line (fuel : Nat) (c c1 : Conn) (out : Outcome (List UInt8))
    (h : read fuel c = some (out, c1)) :
    c1.outgoing = c.outgoing ∧ c1.writeErr = c.writeErr := by
  unfold read messageLength at h
  split at h
  · simp at h
  · rename_i e c2 hm
    obtain ⟨h1, h2⟩ := messageLengthLoop_line _ _ _ _ _ _ hm
    simp only [Option.some.injEq, Prod.mk.injEq] at h
    obtain ⟨_, rfl⟩ := h
    exact ⟨h1, h2⟩
  · rename_i n c2 hm
    obtain ⟨h1, h2⟩ := messageLengthLoop_line _ _ _ _ _ _ hm
    split at h
    · simp only [Option.some.injEq, Prod.mk.injEq] at h
      obtain ⟨_, rfl⟩ := h
      exact ⟨h1, h2⟩
    · obtain ⟨h3, h4⟩ := ReadFull_line c2 (List.replicate n.toNat 0)
      split at h
      rename_i heq
      rw [heq] at h3 h4
      simp only at h3 h4
      split at h
      · simp only [Option.some.injEq, Prod.mk.injEq] at h
        obtain ⟨_, rfl⟩ := h
        exact ⟨h3.trans h1, h4.trans h2⟩
      · simp only [Option.some.injEq, Prod.mk.injEq] at h
        obtain ⟨_, rfl⟩ := h
        exact ⟨h3.trans h1, h4.trans h2⟩

theorem Receive_line (fuel : Nat) (t t1 : Transport) (c : Conn) (out : Outcome (List UInt8))
    (hc : t.conn = some c) (h : t.Receive fuel = some (out, t1)) :
    ∃ c1, t1.conn = some c1 ∧ c1.outgoing = c.outgoing ∧ c1.writeErr = c.writeErr := by
  unfold Transport.Receive at h
  rw [hc] at h
  simp only at h
  split at h
  · simp at h
  · rename_i out1 c1 hr
    obtain ⟨h1, h2⟩ := read_line _ _ _ _ hr
    simp only [Option.some.injEq, Prod.mk.injEq] at h
    obtain ⟨_, rfl⟩ := h
    exact ⟨c1, rfl, h1, h2⟩

theorem write_ok (c : Conn) (b : List UInt8) (h : c.writeErr = none) :
    write (some c) b
      = (Outcome.ok b.length, some { c.SetDeadline with outgoing := c.outgoing ++ [b] }) := by
  simp [write, Conn.Write, Conn.SetDeadline, h]

theorem write_err (c : Conn) (b : List UInt8) (e : Error) (h : c.writeErr = some e) :
    write (some c) b = (Outcome.error e, some c.SetDeadline) := by
  simp [write, Conn.Write, Conn.SetDeadline, h]

/-- One `Send` on a ready transport: the buffer handed to `Write` is what the codec
returns for the incremented counter, the command and its parameters; nothing is
written when the encoding fails. -/
theorem Send_writes (debug : Bool) (fuel : Nat) (t t1 : Transport) (d : Codec) (c : Conn)
    (command : String) (values : Any) (out : Outcome Response) (eff : List Effect)
    (hd : t.de = some d) (hc : t.conn = some c) (hw : c.writeErr = none)
    (h : t.Send debug fuel command values = some (out, t1, eff)) :
    ∃ c1, t1.conn = some c1 ∧ c1.writeErr = none ∧
      c1.outgoing = c.outgoing ++
        (match d.Encode (wrapInt (t.messageID + 1)) command values with
          | Except.ok buf => [buf]
          | Except.error _ => []) := by
  unfold Transport.Send at h
  simp only [hd, hc] at h
  cases henc : d.Encode (wrapInt (t.messageID + 1)) command values with
  | error e =>
    simp only [henc, Option.some.injEq, Prod.mk.injEq] at h
    obtain ⟨_, rfl, _⟩ := h
    exact ⟨c, rfl, hw, by simp⟩
  | ok buf =>
    simp only [henc, write_ok c buf hw] at h
    split at h
    · simp at h
    · rename_i hr
      obtain ⟨c1, h1, h2, h3⟩ := Receive_line _ _ _ _ _ rfl hr
      simp only [Option.some.injEq, Prod.mk.injEq] at h
      obtain ⟨_, rfl, _⟩ := h
      exact ⟨c1, h1, by rw [h3]; simpa [Conn.SetDeadline] using hw, by rw [h2]⟩
    · rename_i hr
      obtain ⟨c1, h1, h2, h3⟩ := Receive_line _ _ _ _ _ rfl hr
      simp only [Option.some.injEq, Prod.mk.injEq] at h
      obtain ⟨_, rfl, _⟩ := h
      exact ⟨c1, h1, by rw [h3]; simpa [Conn.SetDeadline] using hw, by rw [h2]⟩
    · rename_i hr
      obtain ⟨c1, h1, h2, h3⟩ := Receive_line _ _ _ _ _ rfl hr
      split at h
      · simp only [Option.some.injEq, Prod.mk.injEq] at h
        obtain ⟨_, rfl, _⟩ := h
        exact ⟨c1, h1, by rw [h3]; simpa [Conn.SetDeadline] using hw, by rw [h2]⟩
      · split at h
        · simp only [Option.some.injEq, Prod.mk.injEq] at h
          obtain ⟨_, rfl, _⟩ := h
          exact ⟨c1, h1, by rw [h3]; simpa [Conn.SetDeadline] using hw, by rw [h2]⟩
        · simp only [Option.some.injEq, Prod.mk.injEq] at h
          obtain ⟨_, rfl, _⟩ := h
          exact ⟨c1, h1, by rw [h3]; simpa [Conn.SetDeadline] using hw, by rw [h2]⟩

/-- A run of `Send` calls on a ready transport writes, in order, what the codec
returns for consecutive message ids. -/
theorem sendAll_writes (debug : Bool) (fuel : Nat) (d : Codec) :
    ∀ (cmds : List (String × Any)) (t t2 : Transport) (eff : List Effect) (m : Nat) (c : Conn),
      t.de = some d → t.messageID = (m : Int) → m + cmds.length < 2 ^ 63 →
      t.conn = some c → c.writeErr = none →
      sendAll debug fuel t cmds = some (t2, eff) →
      ∃ c2, t2.conn = some c2 ∧
        c2.outgoing = c.outgoing ++ encodedFrames d ((m : Int) + 1) cmds := by
  intro cmds
  induction cmds with
  | nil =>
    intro t t2 eff m c _ _ _ hc _ h
    simp only [sendAll, Option.some.injEq, Prod.mk.injEq] at h
    obtain ⟨rfl, _⟩ := h
    exact ⟨c, hc, by simp [encodedFrames]⟩
  | cons cv rest ih =>
    intro t t2 eff m c hd hm hlen hc hw h
    simp only [List.length_cons] at hlen
    unfold sendAll at h
    split at h
    · exact absurd h (by simp)
    · rename_i out t1 eff1 hs
      obtain ⟨hd1, hm1, _⟩ := Send_id _ _ _ _ d _ _ _ _ hd hs
      obtain ⟨c1, hc1, hw1, ho1⟩ := Send_writes _ _ _ _ d c _ _ _ _ hd hc hw hs
      rw [hm, wrapInt_succ m (by omega)] at hm1 ho1
      split at h
      · exact absurd h (by simp)
      · rename_i t3 eff2 hrest
        simp only [Option.some.injEq, Prod.mk.injEq] at h
        obtain ⟨rfl, _⟩ := h
        obtain ⟨c2, hc2, ho2⟩ := ih t1 t3 eff2 (m + 1) c1 hd1 (by rw [hm1]; push_cast; ring)
          (by omega) hc1 hw1 hrest
        refine ⟨c2, hc2, ?_⟩
        rw [ho2, ho1]
        simp only [encodedFrames, List.append_assoc, Nat.cast_add, Nat.cast_one]

/-! ## The transport: claims -/

/-- C6. Message id monotonicity: on a freshly created Transport that `Connect`
has made ready, for every run of `n` Send calls (`n` within `int`) that all
return, the k-th call hands message id `k` to the encoder (ids 1, 2, ..., n
in order) and `MessageID()` equals `n` afterwards. The ids are read off the
encoder and the wire: the Transport holds a codec and a connection, and for
every codec, when writes succeed, the buffers written by the run are what the
codec returns for the ids 1, 2, ..., n, command by command. -/
theorem Send_message_ids (env : Env) (fuelC : Nat) (addr : String) (t1 : Transport)
    (eff0 : List Effect)
    (hconn : Transport.fresh.Connect env fuelC addr = some (Outcome.ok (), t1, eff0))
    (debug : Bool) (fuel : Nat) (cmds : List (String × Any)) (hn : cmds.length < 2 ^ 63)
    (t2 : Transport) (eff : List Effect) (hs : sendAll debug fuel t1 cmds = some (t2, eff)) :
    encodedIds eff = (List.range' 1 cmds.length).map (fun (k : Nat) => (k : Int)) ∧
      t2.MessageID = (cmds.length : Int) ∧
      (∃ d, t1.de = some d) ∧ (∃ c1, t1.conn = some c1) ∧
      ∀ (d : Codec) (c1 : Conn), t1.de = some d → t1.conn = some c1 → c1.writeErr = none →
        t2.conn.map Conn.outgoing = some (c1.outgoing ++ encodedFrames d 1 cmds) := by
  obtain ⟨hm, ⟨d, hd⟩, ⟨c1, hc1⟩⟩ := Connect_ok_fields env fuelC _ _ addr eff0 hconn
  have h := sendAll_ids debug fuel d cmds t1 t2 eff 0 hd (by rw [hm]; rfl) (by omega) hs
  refine ⟨by simpa using h.1, by simpa [Transport.MessageID] using h.2, ⟨d, hd⟩, ⟨c1, hc1⟩, ?_⟩
  intro d2 c hd2 hc hw
  obtain ⟨c2, hc2, ho⟩ := sendAll_writes debug fuel d2 cmds t1 t2 eff 0 c hd2 (by rw [hm]; rfl)
    (by omega) hc hw hs
  rw [hc2]
  simpa using ho

/-- Witness of C6: a stub server sends the handshake `2:{}` and two replies `2:{}`;
the codec encodes a command as the byte `'0' + id`. After `Connect`, two Send
calls hand the ids 1 and 2 to the encoder, and the bytes `1` and `2` are what
was written to the connection. -/
theorem Send_message_ids_witness :
    ∃ t1 eff0 t2 eff,
      Transport.fresh.Connect
        (idEnv (Conn.ofSegments [[50, 58, 123, 125], [50, 58, 123, 125], [50, 58, 123, 125]]))
        2 "" = some (Outcome.ok (), t1, eff0) ∧
      sendAll false 2 t1 [("WebDriver:GetTitle", ""), ("WebDriver:GetTitle", "")] = some (t2, eff) ∧
      encodedIds eff = [1, 2] ∧ t2.MessageID = 2 ∧
      t2.conn.map Conn.outgoing = some [[49], [50]] :=
  ⟨_, _, _, _, rfl, rfl,
    (Send_message_ids
      (idEnv (Conn.ofSegments [[50, 58, 123, 125], [50, 58, 123, 125], [50, 58, 123, 125]]))
      2 "" _ _ rfl false 2 [("WebDriver:GetTitle", ""), ("WebDriver:GetTitle", "")]
      (by decide) _ _ rfl).1,
    (Send_message_ids
      (idEnv (Conn.ofSegments [[50, 58, 123, 125], [50, 58, 123, 125], [50, 58, 123, 125]]))
      2 "" _ _ rfl false 2 [("WebDriver:GetTitle", ""), ("WebDriver:GetTitle", "")]
      (by decide) _ _ rfl).2.1,
    (Send_message_ids
      (idEnv (Conn.ofSegments [[50, 58, 123, 125], [50, 58, 123, 125], [50, 58, 123, 125]]))
      2 "" _ _ rfl false 2 [("WebDriver:GetTitle", ""), ("WebDriver:GetTitle", "")]
      (by decide) _ _ rfl).2.2.2.2 idCodec _ rfl rfl rfl⟩

/-- C7 fails on the code: the dial succeeds and the peer sends the handshake bytes
`ab:`; `Connect` returns the number error of the handshake read and keeps the
connection handle, so that a second `Connect` on the same Transport is
rejected as already connected, without dialing. -/
theorem Connect_failed_handshake_keeps_conn :
    ∃ t1, Transport.fresh.Connect (stubEnv (Conn.ofSegments [[97, 98, 58]])) 3 ""
        = some (Outcome.error (Error.NumError [97, 98] false), t1, [Effect.dial "127.0.0.1:2828"]) ∧
      t1.conn.isSome = true ∧
      t1.Connect (stubEnv (Conn.ofSegments [[50, 58, 123, 125]])) 3 ""
        = some (Outcome.error (Error.New
            "a connection is already established. please disconnect before connecting"), t1, []) :=
  ⟨_, rfl, rfl, rfl⟩

/-- C8 fails on the code: `Send` on the zero-value Transport (never connected)
increments the message id and panics on the nil codec; on a Transport that was
connected and then closed it hands the id to the encoder and panics on the nil
connection. Neither call returns an error. -/
theorem Send_not_ready_panics :
    (∀ (debug : Bool) (fuel : Nat) (command : String) (values : Any),
      Transport.fresh.Send debug fuel command values
        = some (Outcome.panic nilDereference, { Transport.fresh with messageID := 1 }, [])) ∧
    (∃ t1 eff0 t2, Transport.fresh.Connect (stubEnv (Conn.ofSegments [[50, 58, 123, 125]])) 2 ""
        = some (Outcome.ok (), t1, eff0) ∧
      t1.Close = (none, t2) ∧
      ∀ (debug : Bool) (fuel : Nat) (command : String) (values : Any),
        t2.Send debug fuel command values
          = some (Outcome.panic nilDereference, { t2 with messageID := 1 },
              [Effect.encode 1 command values])) :=
  ⟨fun _ _ _ _ => rfl, _, _, _, rfl, rfl, fun _ _ _ _ => rfl⟩

theorem Close_no_conn (t : Transport) (h : t.conn = none) : t.Close = (none, t) := by
  simp [Transport.Close, h]

theorem Close_twice (t t1 : Transport) (h : t.Close = (none, t1)) :
    t1.conn = none ∧ t1.Close = (none, t1) := by
  have hc : t1.conn = none := by
    unfold Transport.Close at h
    split at h
    · rename_i hn
      simp only [Prod.mk.injEq, true_and] at h
      rw [← h]; exact hn
    · split at h
      · simp at h
      · simp only [Prod.mk.injEq, true_and] at h
        rw [← h]
  exact ⟨hc, Close_no_conn t1 hc⟩

/-- C9. Close is idempotent: on a Transport with no connection `Close` returns
nil and changes no field; whenever a first `Close` returns nil, a second
`Close` returns nil and leaves the Transport exactly as the first left it;
and the same holds for the Transport that a failed `Connect` leaves behind. -/
theorem Close_idempotent :
    (∀ t : Transport, t.conn = none → t.Close = (none, t)) ∧
    (∀ t t1 : Transport, t.Close = (none, t1) → t1.Close = (none, t1)) ∧
    (∀ (env : Env) (fuel : Nat) (t : Transport) (addr : String) (e : Error) (t1 : Transport)
        (eff : List Effect), t.Connect env fuel addr = some (Outcome.error e, t1, eff) →
      ∀ t2 : Transport, t1.Close = (none, t2) → t2.Close = (none, t2)) :=
  ⟨Close_no_conn, fun t t1 h => (Close_twice t t1 h).2,
    fun _ _ _ _ _ t1 _ _ t2 h => (Close_twice t1 t2 h).2⟩

/-- Witness of C9: after the failed handshake `ab:` the first `Close` succeeds and
drops the connection, and the second `Close` changes nothing. -/
theorem Close_idempotent_witness :
    ∃ t1 eff t2, Transport.fresh.Connect (stubEnv (Conn.ofSegments [[97, 98, 58]])) 3 ""
        = some (Outcome.error (Error.NumError [97, 98] false), t1, eff) ∧
      t1.conn.isSome = true ∧ t1.Close = (none, t2) ∧ t2.Close = (none, t2) :=
  ⟨_, _, _, rfl, rfl, rfl,
    Close_idempotent.2.2 (stubEnv (Conn.ofSegments [[97, 98, 58]])) 3 Transport.fresh ""
      (Error.NumError [97, 98] false) _ _ rfl _ rfl⟩

/-- C10. `Connect` on a Transport that already holds a connection fails with the
already-connected error for every address, without dialing and without
changing any field of the Transport. -/
theorem Connect_already_connected (env : Env) (fuel : Nat) (t : Transport) (addr : String)
    (h : t.conn ≠ none) :
    t.Connect env fuel addr = some (Outcome.error (Error.New
      "a connection is already established. please disconnect before connecting"), t, []) := by
  unfold Transport.Connect
  split
  · rfl
  · rename_i hn
    exact absurd hn h

/-- Witness of C10: a Transport holding a connection, asked to connect to another address. -/
theorem Connect_already_connected_witness :
    ({ Transport.fresh with conn := some (Conn.ofSegments []) } : Transport).Connect
        (stubEnv (Conn.ofSegments [[50, 58, 123, 125]])) 2 "10.0.0.1:2828"
      = some (Outcome.error (Error.New
          "a connection is already established. please disconnect before connecting"),
        { Transport.fresh with conn := some (Conn.ofSegments []) }, []) :=
  Connect_already_connected (stubEnv (Conn.ofSegments [[50, 58, 123, 125]])) 2
    { Transport.fresh with conn := some (Conn.ofSegments []) } "10.0.0.1:2828" (by simp)

/-! ## Debug logging, `SendAndDecode`, consecutive frames -/

theorem slice_in_bounds (buf : List UInt8) (h : buf.length ≥ 512) :
    slice buf 0 512 = some (buf.take 512) ∧
      slice buf (buf.length - 512) buf.length = some (buf.drop (buf.length - 512)) := by
  constructor
  · simp only [slice, Nat.zero_le, true_and, List.drop_zero]
    rw [if_pos (by omega)]
  · simp only [slice, List.take_length]
    rw [if_pos (by omega)]

theorem debugLine_some (buf : List UInt8) : ∃ line, debugLine buf = some line := by
  unfold debugLine
  split
  · rename_i h
    obtain ⟨h1, h2⟩ := slice_in_bounds buf h
    rw [h1, h2]
    exact ⟨_, rfl⟩
  · exact ⟨_, rfl⟩

theorem debugLine_ne_none (buf : List UInt8) : debugLine buf ≠ none := by
  obtain ⟨line, hl⟩ := debugLine_some buf
  simp [hl]

/-- C11. Debug logging does not interfere: for every Transport state, command,
parameters and peer behaviour, `Send` returns the same Response or the same
error (or panics alike, or runs on alike) and leaves the same Transport state
whether `RunningInDebugMode` is true or false; the logging branch never fails:
for every encoded buffer of 512 bytes or more its two slices are in bounds. -/
theorem Send_debug_independent (fuel : Nat) (t : Transport) (command : String) (values : Any) :
    (t.Send true fuel command values).map (fun r => (r.1, r.2.1))
        = (t.Send false fuel command values).map (fun r => (r.1, r.2.1)) ∧
      (∀ buf : List UInt8, buf.length ≥ 512 →
        (slice buf 0 512).isSome = true ∧
          (slice buf (buf.length - 512) buf.length).isSome = true) ∧
      (∀ buf : List UInt8, (debugLine buf).isSome = true) := by
  refine ⟨?_, ?_, ?_⟩
  · unfold Transport.Send
    simp only
    split
    · rfl
    · split
      · rfl
      · split
        · rfl
        · rfl
        · split
          · rfl
          · rfl
          · rfl
          · simp only [if_true, Bool.false_eq_true, if_false]
            split
            · rename_i heq
              rw [Option.map_eq_none'] at heq
              exact absurd heq (debugLine_ne_none _)
            · split <;> rfl
  · intro buf h
    obtain ⟨h1, h2⟩ := slice_in_bounds buf h
    simp [h1, h2]
  · intro buf
    obtain ⟨line, hl⟩ := debugLine_some buf
    simp [hl]

/-- C12. `SendAndDecode` is the composition of `Send` and decode: for every
command and parameters, if `Send` fails then `SendAndDecode` returns exactly
that error and leaves `dest` untouched; otherwise it returns exactly the
result of decoding `Response.Value` into `dest` (nil on success, the decode
error on failure). The Transport and the effects are those of `Send`. -/
theorem SendAndDecode_composition {D : Type} (unmarshal : String → D → D × Option Error)
    (debug : Bool) (fuel : Nat) (t : Transport) (dest : D) (command : String) (values : Any) :
    (∀ (e : Error) (t1 : Transport) (eff : List Effect),
      t.Send debug fuel command values = some (Outcome.error e, t1, eff) →
      t.SendAndDecode unmarshal debug fuel dest command values
        = some (Outcome.error e, dest, t1, eff)) ∧
    (∀ (data : Response) (t1 : Transport) (eff : List Effect),
      t.Send debug fuel command values = some (Outcome.ok data, t1, eff) →
      t.SendAndDecode unmarshal debug fuel dest command values
        = some ((match (unmarshal data.Value dest).2 with
            | some e => Outcome.error e
            | none => Outcome.ok ()),
          (unmarshal data.Value dest).1, t1, eff)) := by
  constructor
  · intro e t1 eff h
    simp [Transport.SendAndDecode, h]
  · intro data t1 eff h
    simp only [Transport.SendAndDecode, h]
    split <;> rename_i h2 <;> simp [h2]

/-- Witness of C12: a stub server that answers the command with the frame `2:{}`,
where `SendAndDecode` decodes the (empty) value into `dest`, and one that
answers with the bytes `ab:`, where it returns the error of `Send` and leaves
`dest` as it was. -/
theorem SendAndDecode_composition_witness :
    (∃ t2 eff2, (stubReady (Conn.ofSegments [[50, 58, 123, 125]])).SendAndDecode
        (fun s (_ : Nat) => (s.length + 7, none)) false 2 0 "WebDriver:GetTitle" ""
        = some (Outcome.ok (), 7, t2, eff2)) ∧
    (∃ t3 eff3, (stubReady (Conn.ofSegments [[97, 98, 58]])).SendAndDecode
        (fun s (_ : Nat) => (s.length + 7, none)) false 3 5 "WebDriver:GetTitle" ""
        = some (Outcome.error (Error.NumError [97, 98] false), 5, t3, eff3)) :=
  ⟨⟨_, _, (SendAndDecode_composition (fun s (_ : Nat) => (s.length + 7, none)) false 2
      (stubReady (Conn.ofSegments [[50, 58, 123, 125]])) 0 "WebDriver:GetTitle" "").2 _ _ _ rfl⟩,
    ⟨_, _, (SendAndDecode_composition (fun s (_ : Nat) => (s.length + 7, none)) false 3
      (stubReady (Conn.ofSegments [[97, 98, 58]])) 5 "WebDriver:GetTitle" "").1 _ _ _ rfl⟩⟩

/-- C13. Exact consumption: for every pair of payloads `p1` and `p2`, when the
stream holds the frame of `p1` immediately followed by the frame of `p2`, the
first `read` returns `p1` and consumes exactly the length field, the ':' and
`len(p1)` bytes: what the stream then holds is the frame of `p2`, and the
second `read` returns `p2`. -/
theorem read_exact_consumption (p1 p2 : List UInt8) (h1 : p1.length ≤ maxAlloc)
    (h2 : p2.length ≤ maxAlloc) (c : Conn) (hc : avail c.incoming = frame p1 ++ frame p2)
    (fuel1 fuel2 : Nat) (hf1 : (decimalASCII p1.length).length < fuel1)
    (hf2 : (decimalASCII p2.length).length < fuel2) :
    ∃ c1, read fuel1 c = some (Outcome.ok p1, c1) ∧ avail c1.incoming = frame p2 ∧
      (read fuel2 c1).map Prod.fst = some (Outcome.ok p2) := by
  obtain ⟨l, hr, hl, _⟩ := read_frame p1 (frame p2) h1 c (by simpa [frame] using hc) fuel1 hf1
  obtain ⟨l2, hr2, _, _⟩ := read_frame p2 [] h2 { c with incoming := l }
    (by simpa [frame] using hl) fuel2 hf2
  exact ⟨{ c with incoming := l }, hr, hl, by rw [hr2]; rfl⟩

/-- Witness of C13: the stream `2:hi1:!` delivered in the segments `2:h` and `i1:!`. -/
theorem read_exact_consumption_witness :
    ∃ c1, read 2 (Conn.ofSegments [[50, 58, 104], [105, 49, 58, 33]])
        = some (Outcome.ok [104, 105], c1) ∧
      avail c1.incoming = frame [33] ∧
      (read 2 c1).map Prod.fst = some (Outcome.ok [33]) :=
  read_exact_consumption [104, 105] [33] (by decide) (by decide)
    (Conn.ofSegments [[50, 58, 104], [105, 49, 58, 33]])
    (by simp [Conn.ofSegments, avail, frame, decimalASCII]) 2 2
    (by simp [decimalASCII]) (by simp [decimalASCII])

/-! ## Input actions and element references -/

/-- C14. `InputActions.Add` tags and appends: for every InputActions value and
every action of one of the five supported kinds (Pause, PointerMove,
PointerUp, PointerDown, Scroll), `Add` returns normally, changes only
`Actions`, lengthens it by exactly one, keeps the earlier entries unchanged and
in order, and the appended entry is the given action with its `Type` field set
to the canonical tag of its kind, whatever `Type` the caller had set. -/
theorem Add_tags_and_appends (ia : InputActions) (action : Action) (tag : String)
    (h : action.tag = some tag) :
    ia.Add action = Outcome.ok { ia with Actions := ia.Actions ++ [action.withType tag] } ∧
      (ia.Actions ++ [action.withType tag]).length = ia.Actions.length + 1 ∧
      (ia.Actions ++ [action.withType tag]).take ia.Actions.length = ia.Actions ∧
      (action.withType tag).type = some tag ∧
      (action.withType tag).withType ((action.type).getD "") = action := by
  refine ⟨?_, by simp, by simp, ?_, ?_⟩
  · cases action <;> simp [Action.tag] at h <;> subst h <;> rfl
  · cases action <;> simp [Action.tag] at h <;> rfl
  · cases action <;> simp [Action.tag] at h <;> rfl

/-- Witness of C14: a pointer move that the caller had labelled `bogus`. -/
theorem Add_tags_and_appends_witness :
    ({ Type_ := "pointer", Id := "mouse1", Parameters := some { PointerType := "mouse" },
       Actions := [Action.pause { Type_ := "pause", Duration := 10 }] } : InputActions).Add
        (Action.pointerMove { Type_ := "bogus", Duration := 5, Origin := "viewport", X := 1, Y := 2 })
      = Outcome.ok
        { Type_ := "pointer", Id := "mouse1", Parameters := some { PointerType := "mouse" },
          Actions := [Action.pause { Type_ := "pause", Duration := 10 },
            Action.pointerMove
              { Type_ := "pointerMove", Duration := 5, Origin := "viewport", X := 1, Y := 2 }] } :=
  (Add_tags_and_appends _
    (Action.pointerMove { Type_ := "bogus", Duration := 5, Origin := "viewport", X := 1, Y := 2 })
    "pointerMove" rfl).1

/-- C15. `WebElement.UnmarshalJSON` is all-or-nothing: for every input that parses
as an object of objects of strings, if the `value` object contains the key
`element-6066-11e4-a52e-4f735466cecf` the id of the element becomes the string
of that key and nil is returned; otherwise (no `value` member, or the key is
missing in it) a DriverError with ErrorType `WebDriverElementKey` is returned
and the element is left unchanged; when the input does not parse, the parse
error is returned and the element is likewise unchanged. -/
theorem UnmarshalJSON_all_or_nothing
    (unmarshal : List UInt8 → Except Error (GoMap (GoMap String))) (e : WebElement)
    (data : List UInt8) :
    (∀ (d : GoMap (GoMap String)) (value : GoMap String) (newId : String),
      unmarshal data = Except.ok d → d "value" = some value →
      value "element-6066-11e4-a52e-4f735466cecf" = some newId →
      e.UnmarshalJSON unmarshal data = (none, { e with id := newId })) ∧
    (∀ d : GoMap (GoMap String), unmarshal data = Except.ok d →
      (d "value" = none ∨
        ∃ value, d "value" = some value ∧ value "element-6066-11e4-a52e-4f735466cecf" = none) →
      ∃ de : DriverError, de.ErrorType = "WebDriverElementKey" ∧
        e.UnmarshalJSON unmarshal data = (some (Error.driver de), e)) ∧
    (∀ err : Error, unmarshal data = Except.error err →
      e.UnmarshalJSON unmarshal data = (some err, e)) := by
  refine ⟨?_, ?_, ?_⟩
  · intro d value newId hd hv hk
    simp [WebElement.UnmarshalJSON, hd, hv, WEBDRIVER_ELEMENT_KEY, hk]
  · intro d hd hmiss
    refine ⟨DriverError.mk "WebDriverElementKey"
      ("key " ++ WEBDRIVER_ELEMENT_KEY ++ " expected in response but not found") none, rfl, ?_⟩
    rcases hmiss with hv | ⟨value, hv, hk⟩
    · simp [WebElement.UnmarshalJSON, hd, hv]
    · simp [WebElement.UnmarshalJSON, hd, hv, WEBDRIVER_ELEMENT_KEY, hk]
  · intro err hd
    simp [WebElement.UnmarshalJSON, hd]

/-- Witness of C15: a decoder that yields the object with member `value` holding the
element key with the string `abc`, and one that yields the empty object. -/
theorem UnmarshalJSON_all_or_nothing_witness :
    ({ id := "old", c := none } : WebElement).UnmarshalJSON
        (fun _ => Except.ok (fun k => if k = "value" then
          some (fun k2 => if k2 = "element-6066-11e4-a52e-4f735466cecf" then some "abc" else none)
          else none)) [123, 125]
      = (none, { id := "abc", c := none }) ∧
    ∃ de : DriverError, de.ErrorType = "WebDriverElementKey" ∧
      ({ id := "old", c := none } : WebElement).UnmarshalJSON
          (fun _ => Except.ok (fun _ => none)) [123, 125]
        = (some (Error.driver de), { id := "old", c := none }) :=
  ⟨(UnmarshalJSON_all_or_nothing _ { id := "old", c := none } [123, 125]).1 _
      (fun k2 => if k2 = "element-6066-11e4-a52e-4f735466cecf" then some "abc" else none) "abc"
      rfl rfl rfl,
    (UnmarshalJSON_all_or_nothing (fun _ => Except.ok (fun _ => none))
      { id := "old", c := none } [123, 125]).2.1 _ rfl (Or.inl rfl)⟩

end Marionette
